import Mathlib

/-!
Verification development for the `workchain` repository.

Shallow embedding of the hash-chained event log (`src/blockchain/Block.ts`,
`src/blockchain/Chain.ts`), the indexed card repository
(`src/repositories/CardRepository.ts`), and the command layer's guarded
state-machine transitions (`PublishProjectCommand`, `ApproveMilestoneCommand`).

Modelling conventions:
* JS `Date` values are modelled by their millisecond value (a `Nat`);
  `toISOString()` is injective on that value, so hashing the ISO string is
  modelled by hashing the `Nat`.
* `crypto.createHash('sha256')` over the `JSON.stringify` of the non-hash
  fields is modelled by an injective constructor `Hash.digest` applied to
  exactly those fields (distinct field tuples stringify to distinct JSON
  strings; SHA-256 is treated as collision-free).  The string literal `'0'`
  used as the genesis sentinel is modelled by `Hash.zero`.
* JS `Map` and `Set` are modelled extensionally: a `Map` keyed by strings
  becomes a function `String → β` (with the `get(k) || []` / `has` pattern
  folded into a default), a `Set` of ids becomes a duplicate-free `List`
  in insertion order.
* Optional string fields (`assigneeId?`, `parentId?`) are modelled as
  `String` with `""` standing for `undefined`; every use in the source only
  tests them for truthiness (`if (card.assigneeId)`), and both `""` and
  `undefined` are falsy, so the quotient is behaviour-preserving.
* Exceptions are modelled with `Except String`; a thrown error produces
  `Except.error` and no successor state, matching "no mutation is visible".
-/

namespace Workchain

/-- SHA-256 digest values, as produced by `Block.calculateHash`
(`src/blockchain/Block.ts`, lines 45-58): the digest of the JSON
serialization of the eight non-hash fields.  Modelled injectively;
`Hash.zero` is the literal string `'0'` used for the genesis
`previousHash` (`Block.ts` line 28, `Chain.ts` line 35). -/
inductive Hash : Type where
  | zero : Hash
  | digest (blockNumber : Nat) (timestamp : Nat) (action : String)
      (entityType : String) (entityId : String) (data : String)
      (actorId : String) (previousHash : Hash) : Hash
  deriving DecidableEq, Repr

/-- A `Block` (`src/blockchain/Block.ts`, lines 10-19): blockNumber,
timestamp, action, entityType, entityId, data (the `CommandData` payload,
kept opaque as a `String`), actorId, previousHash and the stored hash. -/
structure Block where
  blockNumber : Nat
  timestamp : Nat
  action : String
  entityType : String
  entityId : String
  data : String
  actorId : String
  previousHash : Hash
  hash : Hash
  deriving DecidableEq, Repr

/-- `Block.calculateHash` (`Block.ts` lines 45-58): digest of all fields
except `hash` itself. -/
def Block.calculateHash (b : Block) : Hash :=
  Hash.digest b.blockNumber b.timestamp b.action b.entityType b.entityId
    b.data b.actorId b.previousHash

/-- `Block.isValid` (`Block.ts` lines 63-65): the stored hash matches the
recomputed one. -/
def Block.isValid (b : Block) : Bool :=
  decide (b.hash = b.calculateHash)

/-- The `Block` constructor (`Block.ts` lines 21-39): takes the field
values (the timestamp is the ambient clock value of `new Date()`) and
stores `hash := calculateHash()`. -/
def Block.make (blockNumber : Nat) (timestamp : Nat) (action : String)
    (entityType : String) (entityId : String) (data : String)
    (actorId : String) (previousHash : Hash) : Block :=
  { blockNumber := blockNumber, timestamp := timestamp, action := action
    entityType := entityType, entityId := entityId, data := data
    actorId := actorId, previousHash := previousHash
    hash := Hash.digest blockNumber timestamp action entityType entityId
      data actorId previousHash }

/-- The serialized form `IBlock` returned by `Block.toJSON`
(`src/types/index.ts` interface `Block`): same fields, `timestamp` kept as
its `Date` (millisecond) value. -/
structure IBlock where
  blockNumber : Nat
  timestamp : Nat
  action : String
  entityType : String
  entityId : String
  data : String
  actorId : String
  previousHash : Hash
  hash : Hash
  deriving DecidableEq, Repr

/-- `Block.toJSON` (`Block.ts` lines 70-82). -/
def Block.toJSON (b : Block) : IBlock :=
  { blockNumber := b.blockNumber, timestamp := b.timestamp
    action := b.action, entityType := b.entityType, entityId := b.entityId
    data := b.data, actorId := b.actorId, previousHash := b.previousHash
    hash := b.hash }

/-- `Block.fromJSON` (`Block.ts` lines 87-93): copies every field and
rebuilds the timestamp with `new Date(json.timestamp)`, which preserves
the millisecond value.  The hash field is copied, not recomputed. -/
def Block.fromJSON (j : IBlock) : Block :=
  { blockNumber := j.blockNumber, timestamp := j.timestamp
    action := j.action, entityType := j.entityType, entityId := j.entityId
    data := j.data, actorId := j.actorId, previousHash := j.previousHash
    hash := j.hash }

/-- Default used to model the partiality of JS array indexing; chains
reachable from the constructor have nonempty `blocks`, so it is never
observed. -/
def defaultBlock : Block :=
  Block.make 0 0 "" "" "" "" "" Hash.zero

/-- `ChainValidationResult` (`src/types/index.ts`): `{ valid, brokenAtBlock?,
error? }`; absent optional fields are `none`. -/
structure ChainValidationResult where
  valid : Bool
  brokenAtBlock : Option Nat
  error : Option String
  deriving DecidableEq, Repr

/-- `Chain` state (`src/blockchain/Chain.ts` lines 15-17): the block list
and the `entityId -> Block[]` index.  The `Map` is modelled extensionally
as a function with the `get(id) || []` default folded in: an absent key is
the empty list. -/
structure Chain where
  blocks : List Block
  blockIndex : String → List Block

/-- The genesis block (`Chain.ts` lines 27-38), created at clock value
`t`: `new Block(0, CREATE_BOARD, 'Board', 'genesis', { message: 'Genesis
Block' }, 'system', '0')`. -/
def Chain.genesisBlock (t : Nat) : Block :=
  Block.make 0 t "CREATE_BOARD" "Board" "genesis" "Genesis Block" "system"
    Hash.zero

/-- The `Chain` constructor (`Chain.ts` lines 19-22): pushes the genesis
block to `blocks`; the index stays empty. -/
def Chain.init (t : Nat) : Chain :=
  { blocks := [Chain.genesisBlock t], blockIndex := fun _ => [] }

/-- `Chain.getLatestBlock` (`Chain.ts` lines 76-78):
`blocks[blocks.length - 1]`.  The default is never hit on reachable
chains since `blocks` always holds at least the genesis block. -/
def Chain.getLatestBlock (c : Chain) : Block :=
  c.blocks.getLastD defaultBlock

/-- `Chain.addBlock` (`Chain.ts` lines 44-71) at clock value `t`: builds a
block with `blockNumber = blocks.length` and
`previousHash = getLatestBlock().hash`, pushes it, and appends it to the
`entityId` bucket of the index (creating the bucket if absent). -/
def Chain.addBlock (c : Chain) (t : Nat) (action : String)
    (entityType : String) (entityId : String) (data : String)
    (actorId : String) : Chain :=
  let previousBlock := c.getLatestBlock
  let newBlock := Block.make c.blocks.length t action entityType entityId
    data actorId previousBlock.hash
  { blocks := c.blocks ++ [newBlock]
    blockIndex := fun s =>
      if s = entityId then c.blockIndex s ++ [newBlock] else c.blockIndex s }

/-- `Chain.getAllBlocks` (`Chain.ts` lines 83-85). -/
def Chain.getAllBlocks (c : Chain) : List Block :=
  c.blocks

/-- `Chain.getHistory` (`Chain.ts` lines 91-93): `blockIndex.get(id) || []`. -/
def Chain.getHistory (c : Chain) (entityId : String) : List Block :=
  c.blockIndex entityId

/-- Error string of the self-hash check (`Chain.ts` line 122). -/
def hashMismatchMsg : String :=
  "Block hash mismatch - data may be corrupted"

/-- Error string of the link check (`Chain.ts` line 131). -/
def linkBrokenMsg : String :=
  "Chain broken - previousHash does not match previous block"

/-- The loop body of `Chain.validateChain` (`Chain.ts` lines 113-134),
written as structural recursion: `prev` is `blocks[i-1]`, the list is
`blocks[i..]`; checks the self-hash first, then the link. -/
def validateFrom (prev : Block) : List Block → ChainValidationResult
  | [] => { valid := true, brokenAtBlock := none, error := none }
  | cur :: rest =>
    if ¬ cur.isValid then
      { valid := false, brokenAtBlock := some cur.blockNumber
        error := some hashMismatchMsg }
    else if cur.previousHash ≠ prev.hash then
      { valid := false, brokenAtBlock := some cur.blockNumber
        error := some linkBrokenMsg }
    else validateFrom cur rest

/-- `Chain.validateChain` (`Chain.ts` lines 111-137): starts at index 1,
treating the genesis block as always valid; an empty list trivially
returns valid. -/
def Chain.validateChain (c : Chain) : ChainValidationResult :=
  match c.blocks with
  | [] => { valid := true, brokenAtBlock := none, error := none }
  | g :: rest => validateFrom g rest

/-- `Chain.replayEvents` (`Chain.ts` lines 146-154).  The guard
`entityId ? getHistory(entityId) : blocks` uses JS truthiness, so the
empty string selects the full block list, like `undefined` does; a `Date`
object is always truthy, so any provided `upToTime` filters. -/
def Chain.replayEvents (c : Chain) (entityId : Option String)
    (upToTime : Option Nat) : List Block :=
  let events := match entityId with
    | some s => if s = "" then c.blocks else c.getHistory s
    | none => c.blocks
  match upToTime with
  | some t => events.filter (fun b => b.timestamp ≤ t)
  | none => events

/-- `Chain.length` (`Chain.ts` lines 208-210). -/
def Chain.chainLength (c : Chain) : Nat :=
  c.blocks.length

/-- One `addBlock` call site: the arguments plus the ambient clock value
`t` of the `new Date()` executed inside the `Block` constructor. -/
structure AddReq where
  t : Nat
  action : String
  entityType : String
  entityId : String
  data : String
  actorId : String
  deriving DecidableEq, Repr

/-- A chain built from the constructor (at clock `t0`) by the given
sequence of `addBlock` calls. -/
def Chain.build (t0 : Nat) (reqs : List AddReq) : Chain :=
  reqs.foldl
    (fun c r => c.addBlock r.t r.action r.entityType r.entityId r.data
      r.actorId)
    (Chain.init t0)

/-! ### Helper lemmas about list indexing -/

theorem getD_concat_length (l : List Block) (b d : Block) :
    (l ++ [b]).getD l.length d = b := by
  rw [List.getD_append_right l [b] d l.length (Nat.le_refl _)]
  simp

theorem getLastD_eq_getD (l : List Block) (d : Block) :
    l.getLastD d = l.getD (l.length - 1) d := by
  rw [List.getLastD_eq_getLast?, List.getLast?_eq_getElem?,
    List.getD_eq_getD_get?, List.get?_eq_getElem?]

theorem Block.make_isValid (n t : Nat) (a et eid dat act : String)
    (ph : Hash) : (Block.make n t a et eid dat act ph).isValid = true := by
  simp [Block.make, Block.isValid, Block.calculateHash]

/-! ### The invariant of chains built by `addBlock` -/

/-- Invariant of every chain reachable from the `Chain` constructor by
`addBlock` calls. -/
structure BuildInv (c : Chain) : Prop where
  ne : c.blocks ≠ []
  head0 : (c.blocks.headD defaultBlock).blockNumber = 0
  tailPos : ∀ b ∈ c.blocks.drop 1, 0 < b.blockNumber
  numbered : ∀ i, i < c.blocks.length →
    (c.blocks.getD i defaultBlock).blockNumber = i
  allValid : ∀ b ∈ c.blocks, b.isValid = true
  linkIdx : ∀ i, i < c.blocks.length → 0 < i →
    (c.blocks.getD i defaultBlock).previousHash =
      (c.blocks.getD (i - 1) defaultBlock).hash
  hist : ∀ s, c.getHistory s =
    (c.blocks.drop 1).filter (fun b => b.entityId == s)

theorem buildInv_init (t0 : Nat) : BuildInv (Chain.init t0) := by
  refine ⟨by simp [Chain.init], rfl, ?_, ?_, ?_, ?_, ?_⟩
  · intro b hb
    simp [Chain.init] at hb
  · intro i hi
    simp [Chain.init] at hi
    subst hi
    rfl
  · intro b hb
    simp [Chain.init] at hb
    subst hb
    exact Block.make_isValid _ _ _ _ _ _ _ _
  · intro i hi h0
    simp [Chain.init] at hi
    omega
  · intro s
    rfl

theorem buildInv_addBlock (c : Chain) (hc : BuildInv c) (t : Nat)
    (action entityType entityId data actorId : String) :
    BuildInv (c.addBlock t action entityType entityId data actorId) := by
  obtain ⟨hne, hh0, htp, hnum, hval, hlink, hhist⟩ := hc
  set nb := Block.make c.blocks.length t action entityType entityId data
    actorId (c.getLatestBlock).hash with hnb
  have hblocks :
      (c.addBlock t action entityType entityId data actorId).blocks =
        c.blocks ++ [nb] := rfl
  have hlen : 1 ≤ c.blocks.length := by
    cases h : c.blocks with
    | nil => exact absurd h hne
    | cons a l => simp
  have hdrop : (c.blocks ++ [nb]).drop 1 = c.blocks.drop 1 ++ [nb] := by
    rw [List.drop_append_eq_append_drop]
    congr 1
    have : 1 - c.blocks.length = 0 := by omega
    simp [this]
  refine ⟨by simp [hblocks], ?_, ?_, ?_, ?_, ?_, ?_⟩
  · rw [hblocks]
    obtain ⟨a, l, h⟩ : ∃ a l, c.blocks = a :: l := by
      cases hx : c.blocks with
      | nil => exact absurd hx hne
      | cons a l => exact ⟨a, l, rfl⟩
    rw [h]
    have h2 : c.blocks.headD defaultBlock = a := by rw [h]; rfl
    show a.blockNumber = 0
    rw [← h2]
    exact hh0
  · rw [hblocks, hdrop]
    intro b hb
    rcases List.mem_append.mp hb with h | h
    · exact htp b h
    · simp at h
      subst h
      simpa [hnb, Block.make] using hlen
  · rw [hblocks]
    intro i hi
    simp at hi
    rcases Nat.lt_or_ge i c.blocks.length with h | h
    · rw [List.getD_append _ _ _ _ h]
      exact hnum i h
    · have : i = c.blocks.length := by omega
      subst this
      rw [getD_concat_length]
      rfl
  · rw [hblocks]
    intro b hb
    rcases List.mem_append.mp hb with h | h
    · exact hval b h
    · simp at h
      subst h
      exact Block.make_isValid _ _ _ _ _ _ _ _
  · rw [hblocks]
    intro i hi h0
    simp at hi
    rcases Nat.lt_or_ge i c.blocks.length with h | h
    · rw [List.getD_append _ _ _ _ h, List.getD_append _ _ _ _ (by omega)]
      exact hlink i h h0
    · have : i = c.blocks.length := by omega
      subst this
      rw [getD_concat_length, List.getD_append _ _ _ _ (by omega)]
      show (c.getLatestBlock).hash = _
      rw [Chain.getLatestBlock, getLastD_eq_getD]
  · intro s
    have hh : c.blockIndex s =
        (c.blocks.drop 1).filter (fun b => b.entityId == s) := hhist s
    show (if s = entityId then c.blockIndex s ++ [nb] else c.blockIndex s) = _
    rw [hblocks, hdrop, List.filter_append, hh]
    have he : nb.entityId = entityId := rfl
    by_cases h : s = entityId
    · subst h
      rw [if_pos rfl]
      simp [he]
    · rw [if_neg h]
      have hfe : List.filter (fun b => b.entityId == s) [nb] = [] := by
        simp [he]
        exact fun hh2 => h hh2.symm
      rw [hfe, List.append_nil]

theorem buildInv (t0 : Nat) (reqs : List AddReq) :
    BuildInv (Chain.build t0 reqs) := by
  suffices h : ∀ (rs : List AddReq) (c : Chain), BuildInv c →
      BuildInv (rs.foldl
        (fun c r => c.addBlock r.t r.action r.entityType r.entityId r.data
          r.actorId) c) by
    exact h reqs (Chain.init t0) (buildInv_init t0)
  intro rs
  induction rs with
  | nil => intro c hc; exact hc
  | cons r rest ih =>
    intro c hc
    exact ih _ (buildInv_addBlock c hc r.t r.action r.entityType r.entityId
      r.data r.actorId)

/-! ### Validation loop lemmas -/

/-- One iteration of the `validateChain` loop passes: the block's
self-hash is correct and its `previousHash` matches the previous block's
stored hash. -/
def okStep (prev cur : Block) : Prop :=
  cur.isValid = true ∧ cur.previousHash = prev.hash

theorem validateFrom_ok (l : List Block) (prev : Block)
    (h : List.Chain okStep prev l) :
    validateFrom prev l =
      { valid := true, brokenAtBlock := none, error := none } := by
  induction l generalizing prev with
  | nil => rfl
  | cons a t ih =>
    rcases List.chain_cons.mp h with ⟨⟨hv, hl⟩, ht⟩
    rw [validateFrom, if_neg (by simp [hv]), if_neg (by simp [hl])]
    exact ih a ht

theorem chainOk_of_indexed (g : Block) (l : List Block)
    (h : ∀ i, i < (g :: l).length → 0 < i →
      ((g :: l).getD i defaultBlock).isValid = true ∧
      ((g :: l).getD i defaultBlock).previousHash =
        ((g :: l).getD (i - 1) defaultBlock).hash) :
    List.Chain okStep g l := by
  induction l generalizing g with
  | nil => exact List.Chain.nil
  | cons a t ih =>
    refine List.chain_cons.mpr ⟨?_, ?_⟩
    · have h1 := h 1 (by simp) Nat.one_pos
      exact ⟨by simpa using h1.1, by simpa using h1.2⟩
    · apply ih
      intro i hi h0
      obtain ⟨j, rfl⟩ : ∃ j, i = j + 1 := ⟨i - 1, by omega⟩
      have hmain := h (j + 2) (by simpa using Nat.succ_lt_succ hi) (by omega)
      simpa using hmain

/-- **C1** (chain linking): for every chain built from the genesis
constructor by repeated `addBlock` calls, and every position `i > 0`, the
block at position `i` has `previousHash` equal to the `hash` field of the
block at position `i - 1`. -/
theorem chain_linking (t0 : Nat) (reqs : List AddReq) (i : Nat)
    (h0 : 0 < i) (h1 : i < (Chain.build t0 reqs).blocks.length) :
    ((Chain.build t0 reqs).blocks.getD i defaultBlock).previousHash =
      ((Chain.build t0 reqs).blocks.getD (i - 1) defaultBlock).hash :=
  (buildInv t0 reqs).linkIdx i h1 h0

/-- Witness for `chain_linking`: a two-block chain, checked at `i = 1`. -/
theorem chain_linking_witness :
    0 < 1 ∧
    1 < (Chain.build 0 [⟨1, "CREATE_CARD", "Card", "c1", "d1", "u1"⟩]).blocks.length ∧
    ((Chain.build 0 [⟨1, "CREATE_CARD", "Card", "c1", "d1", "u1"⟩]).blocks.getD 1
        defaultBlock).previousHash =
      ((Chain.build 0 [⟨1, "CREATE_CARD", "Card", "c1", "d1", "u1"⟩]).blocks.getD 0
        defaultBlock).hash :=
  ⟨Nat.one_pos, by decide,
    chain_linking 0 [⟨1, "CREATE_CARD", "Card", "c1", "d1", "u1"⟩] 1
      Nat.one_pos (by decide)⟩

/-- **C5** (history completeness and order): for every chain built by
repeated `addBlock` and every subject id `s`, `getHistory s` is exactly
the appended blocks (the blocks after the genesis block, in append order)
whose `entityId` is `s`, and no others. -/
theorem history_exact (t0 : Nat) (reqs : List AddReq) (s : String) :
    (Chain.build t0 reqs).getHistory s =
      ((Chain.build t0 reqs).blocks.drop 1).filter
        (fun b => b.entityId == s) :=
  (buildInv t0 reqs).hist s

/-- **C10** (implicit): the genesis block is never present in the
per-entity history index: for every built chain and every subject id `s`
the block at position 0 is not in `getHistory s`; on a fresh chain
`getHistory "genesis"` is empty even though `getAllBlocks` contains the
genesis block. -/
theorem genesis_never_indexed (t0 : Nat) (reqs : List AddReq) (s : String) :
    ((Chain.build t0 reqs).blocks.headD defaultBlock) ∉
      (Chain.build t0 reqs).getHistory s ∧
    (Chain.init t0).getHistory "genesis" = [] ∧
    Chain.genesisBlock t0 ∈ (Chain.init t0).getAllBlocks := by
  refine ⟨?_, rfl, by simp [Chain.init, Chain.getAllBlocks]⟩
  intro hmem
  have hinv := buildInv t0 reqs
  rw [hinv.hist s] at hmem
  have hmem' := List.mem_of_mem_filter hmem
  have hpos := hinv.tailPos _ hmem'
  rw [hinv.head0] at hpos
  exact Nat.lt_irrefl 0 hpos

/-- **C7**: `validateChain` starts at position 1 and never examines the
record at position 0: whenever every block at position `i > 0` passes both
the self-hash check and the link check, the chain reports valid — with no
condition at all on the genesis record. -/
theorem validate_skips_genesis (c : Chain)
    (h : ∀ i, i < c.blocks.length → 0 < i →
      (c.blocks.getD i defaultBlock).isValid = true ∧
      (c.blocks.getD i defaultBlock).previousHash =
        (c.blocks.getD (i - 1) defaultBlock).hash) :
    c.validateChain =
      { valid := true, brokenAtBlock := none, error := none } := by
  have hv : c.validateChain = match c.blocks with
    | [] => { valid := true, brokenAtBlock := none, error := none }
    | g :: rest => validateFrom g rest := rfl
  rcases hb : c.blocks with _ | ⟨g, rest⟩
  · rw [hv, hb]
  · rw [hv, hb]
    rw [hb] at h
    exact validateFrom_ok rest g (chainOk_of_indexed g rest h)

/-- A chain whose genesis record was corrupted in place (its `entityId`
changed, its stored hash left as it was, so its self-hash check fails),
followed by one well-formed block linking to the *stored* genesis hash. -/
def corruptChain : Chain :=
  let g := { Chain.genesisBlock 0 with entityId := "tampered" }
  { blocks := [g, Block.make 1 5 "CREATE_CARD" "Card" "c1" "d1" "u1" g.hash]
    blockIndex := fun _ => [] }

/-- Witness for `validate_skips_genesis`: the corrupted genesis fails its
own self-hash check, yet the whole chain still validates. -/
theorem validate_skips_genesis_witness :
    (corruptChain.blocks.headD defaultBlock).isValid = false ∧
    corruptChain.validateChain =
      { valid := true, brokenAtBlock := none, error := none } :=
  ⟨by decide, validate_skips_genesis corruptChain (by decide)⟩

/-! ### Tampering with a stored block -/

/-- A mutation of a single block field other than `hash`, with the value
it is overwritten by. -/
inductive FieldMut : Type where
  | blockNumber (v : Nat)
  | timestamp (v : Nat)
  | action (v : String)
  | entityType (v : String)
  | entityId (v : String)
  | data (v : String)
  | actorId (v : String)
  | previousHash (v : Hash)
  deriving DecidableEq, Repr

/-- Apply a single-field mutation; the stored `hash` is left untouched
and nothing is recomputed. -/
def applyMut (m : FieldMut) (b : Block) : Block :=
  match m with
  | .blockNumber v => { b with blockNumber := v }
  | .timestamp v => { b with timestamp := v }
  | .action v => { b with action := v }
  | .entityType v => { b with entityType := v }
  | .entityId v => { b with entityId := v }
  | .data v => { b with data := v }
  | .actorId v => { b with actorId := v }
  | .previousHash v => { b with previousHash := v }

/-- In-place corruption of the record at position `k` of the log. -/
def Chain.mutateAt (c : Chain) (k : Nat) (m : FieldMut) : Chain :=
  { c with
    blocks := c.blocks.set k (applyMut m (c.blocks.getD k defaultBlock)) }

/-- The `blockNumber` field the mutated record at position `k` of a built
chain carries after the mutation: `k` itself unless the mutated field was
`blockNumber`, in which case the overwritten value. -/
def mutatedNumber (m : FieldMut) (k : Nat) : Nat :=
  match m with
  | .blockNumber v => v
  | _ => k

theorem applyMut_hash (m : FieldMut) (b : Block) :
    (applyMut m b).hash = b.hash := by
  cases m <;> rfl

theorem applyMut_blockNumber (m : FieldMut) (b : Block) :
    (applyMut m b).blockNumber = mutatedNumber m b.blockNumber := by
  cases m <;> rfl

/-- Two blocks with the same stored hash and the same recomputed hash are
equal: `calculateHash` covers every field except `hash`. -/
theorem calculateHash_inj (b b' : Block) (hh : b.hash = b'.hash)
    (hc : b.calculateHash = b'.calculateHash) : b = b' := by
  obtain ⟨⟩ := b
  obtain ⟨⟩ := b'
  simp only [Block.calculateHash, Hash.digest.injEq] at hc
  simp_all

theorem applyMut_calculateHash_ne (m : FieldMut) (b : Block)
    (hne : applyMut m b ≠ b) :
    (applyMut m b).calculateHash ≠ b.calculateHash := fun heq =>
  hne (calculateHash_inj _ _ (applyMut_hash m b) heq)

theorem chain_take {α : Type} {R : α → α → Prop} (l : List α) :
    ∀ a : α, List.Chain R a l → ∀ n, List.Chain R a (l.take n) := by
  induction l with
  | nil => intro a _ n; simp
  | cons x t ih =>
    intro a h n
    rcases List.chain_cons.mp h with ⟨hax, hxt⟩
    cases n with
    | zero => simp
    | succ n => simpa using List.chain_cons.mpr ⟨hax, ih x hxt n⟩

/-- If every record before position `k` passes both checks and the record
written at position `k` fails its self-hash check, the validation loop
stops there with the hash-mismatch error, reporting that record's own
`blockNumber`. -/
theorem validateFrom_set_fail (l : List Block) (prev : Block) (k : Nat)
    (b : Block) (hk : k < l.length)
    (hok : List.Chain okStep prev (l.take k))
    (hbad : b.isValid = false) :
    validateFrom prev (l.set k b) =
      { valid := false, brokenAtBlock := some b.blockNumber
        error := some hashMismatchMsg } := by
  induction l generalizing prev k with
  | nil => simp at hk
  | cons a t ih =>
    cases k with
    | zero =>
      show validateFrom prev (b :: t) = _
      rw [validateFrom, if_pos (by simp [hbad])]
    | succ k =>
      rcases List.chain_cons.mp (by simpa using hok) with ⟨⟨hv, hl⟩, ht⟩
      show validateFrom prev (a :: t.set k b) = _
      rw [validateFrom, if_neg (by simp [hv]), if_neg (by simp [hl])]
      exact ih a k (by simpa using hk) ht

theorem getD_mem (l : List Block) (i : Nat) (d : Block)
    (h : i < l.length) : l.getD i d ∈ l := by
  rw [List.getD_eq_getElem _ _ h]
  exact List.getElem_mem _

/-- **C2 amended** (tamper detection): in a chain built by `addBlock`,
mutating any single field other than `hash` of the record at position `k`
(`0 < k < n`) to a different value, and recomputing nothing else, makes
`validateChain` return `valid = false` with the hash-mismatch error and
`brokenAtBlock` equal to the mutated record's `blockNumber` field: that
is `k` itself whenever the mutated field is not `blockNumber`, and the
overwritten value when it is. -/
theorem tamper_detection (t0 : Nat) (reqs : List AddReq) (k : Nat)
    (m : FieldMut) (h0 : 0 < k)
    (h1 : k < (Chain.build t0 reqs).blocks.length)
    (hchange :
      applyMut m ((Chain.build t0 reqs).blocks.getD k defaultBlock) ≠
        (Chain.build t0 reqs).blocks.getD k defaultBlock) :
    ((Chain.build t0 reqs).mutateAt k m).validateChain =
      { valid := false, brokenAtBlock := some (mutatedNumber m k)
        error := some hashMismatchMsg } := by
  have hinv := buildInv t0 reqs
  set c := Chain.build t0 reqs with hc
  obtain ⟨g, tail, hb⟩ : ∃ g tail, c.blocks = g :: tail := by
    cases hx : c.blocks with
    | nil => exact absurd hx hinv.ne
    | cons a l => exact ⟨a, l, rfl⟩
  obtain ⟨j, rfl⟩ : ∃ j, k = j + 1 := ⟨k - 1, by omega⟩
  set bk := c.blocks.getD (j + 1) defaultBlock with hbk
  set b := applyMut m bk with hbdef
  have hbkvalid : bk.isValid = true :=
    hinv.allValid bk (hbk ▸ getD_mem c.blocks (j + 1) defaultBlock h1)
  have hbkeq : bk.hash = bk.calculateHash := by
    simpa [Block.isValid] using hbkvalid
  have hbbad : b.isValid = false := by
    rw [Block.isValid, decide_eq_false_iff_not]
    intro hh
    rw [hbdef, applyMut_hash, hbkeq] at hh
    exact applyMut_calculateHash_ne m bk hchange hh.symm
  have hset : (c.mutateAt (j + 1) m).blocks = g :: tail.set j b := by
    show c.blocks.set (j + 1) b = _
    rw [hb]
    rfl
  have hmatch : (c.mutateAt (j + 1) m).validateChain =
      match (c.mutateAt (j + 1) m).blocks with
      | [] => { valid := true, brokenAtBlock := none, error := none }
      | g :: rest => validateFrom g rest := rfl
  have hvalidate : (c.mutateAt (j + 1) m).validateChain =
      validateFrom g (tail.set j b) := by
    rw [hmatch, hset]
  have hchain : List.Chain okStep g tail := by
    apply chainOk_of_indexed
    intro i hi hpos
    rw [← hb] at hi ⊢
    exact ⟨hinv.allValid _ (getD_mem c.blocks i defaultBlock hi),
      hinv.linkIdx i hi hpos⟩
  have hjlen : j < tail.length := by
    have hlen : c.blocks.length = tail.length + 1 := by rw [hb]; rfl
    omega
  rw [hvalidate,
    validateFrom_set_fail tail g j b hjlen (chain_take tail g hchain j) hbbad]
  have hnum : bk.blockNumber = j + 1 := hinv.numbered (j + 1) h1
  rw [show b.blockNumber = mutatedNumber m (j + 1) from by
    rw [hbdef, applyMut_blockNumber, hnum]]

/-- **C2 counterexample**: in a valid two-block chain, overwrite the
`blockNumber` field (a field other than `hash`) of the record at
position `k = 1` with `7`.  `validateChain` reports `valid = false`, but
`brokenAtBlock` is `7`, not `k = 1` — refuting the claim that the broken
position is always reported as `k`. -/
theorem tamper_detection_counterexample :
    ((Chain.build 0 [⟨1, "CREATE_CARD", "Card", "c1", "d1", "u1"⟩]).mutateAt 1
        (FieldMut.blockNumber 7)).validateChain.valid = false ∧
    ((Chain.build 0 [⟨1, "CREATE_CARD", "Card", "c1", "d1", "u1"⟩]).mutateAt 1
        (FieldMut.blockNumber 7)).validateChain.brokenAtBlock ≠ some 1 := by
  decide

/-- The five `addBlock` requests of the spec's Scenario C shape. -/
def scenarioCReqs : List AddReq :=
  [⟨1, "CREATE_CARD", "Card", "c1", "d1", "u1"⟩,
   ⟨2, "UPDATE_CARD", "Card", "c1", "d2", "u1"⟩,
   ⟨3, "MOVE_CARD", "Card", "c1", "d3", "u2"⟩,
   ⟨4, "DELETE_CARD", "Card", "c1", "d4", "u2"⟩]

/-- Witness for `tamper_detection`: flip the `action` of record 2 of a
5-record chain; validation reports `brokenAtBlock = 2` (Scenario C). -/
theorem tamper_detection_witness :
    0 < 2 ∧ 2 < (Chain.build 0 scenarioCReqs).blocks.length ∧
    applyMut (FieldMut.action "XPDATE_CARD")
        ((Chain.build 0 scenarioCReqs).blocks.getD 2 defaultBlock) ≠
      (Chain.build 0 scenarioCReqs).blocks.getD 2 defaultBlock ∧
    ((Chain.build 0 scenarioCReqs).mutateAt 2
        (FieldMut.action "XPDATE_CARD")).validateChain =
      { valid := false, brokenAtBlock := some 2
        error := some hashMismatchMsg } :=
  ⟨by decide, by decide, by decide,
    tamper_detection 0 scenarioCReqs 2 (FieldMut.action "XPDATE_CARD")
      (by decide) (by decide) (by decide)⟩

/-! ### Replay filter -/

theorem filter_eq_takeWhile_of_mono (l : List Block) (T : Nat)
    (h : List.Pairwise (fun a b => a.timestamp ≤ b.timestamp) l) :
    l.filter (fun b => b.timestamp ≤ T) =
      l.takeWhile (fun b => b.timestamp ≤ T) := by
  induction l with
  | nil => rfl
  | cons a t ih =>
    rcases List.pairwise_cons.mp h with ⟨ha, ht⟩
    by_cases hp : a.timestamp ≤ T
    · simp [hp, ih ht]
    · simp [hp, List.filter_eq_nil_iff]
      intro b hb
      have := ha b hb
      omega

/-- **C6 amended** (replay filter): every block returned by
`replayEvents (some s) (some T)` has `timestamp ≤ T`; for a nonempty
subject id whose history has nondecreasing timestamps the result is a
prefix of `getHistory s`; and for a nonempty subject id
`replayEvents (some s) none` is exactly `getHistory s` unfiltered.
(For `s = ""` the source's truthiness test `entityId ? ... : ...`
selects the full block list instead of the history, see the
counterexample.) -/
theorem replay_filter (c : Chain) (s : String) (T : Nat) :
    (∀ b ∈ c.replayEvents (some s) (some T), b.timestamp ≤ T) ∧
    (s ≠ "" →
      List.Pairwise (fun a b => a.timestamp ≤ b.timestamp)
        (c.getHistory s) →
      c.replayEvents (some s) (some T) <+: c.getHistory s) ∧
    (s ≠ "" → c.replayEvents (some s) none = c.getHistory s) := by
  refine ⟨?_, ?_, ?_⟩
  · intro b hb
    have hb' : b ∈ (if s = "" then c.blocks else c.getHistory s).filter
        (fun x => x.timestamp ≤ T) := hb
    simpa using (List.mem_filter.mp hb').2
  · intro hs hmono
    have he : c.replayEvents (some s) (some T) =
        (c.getHistory s).filter (fun x => x.timestamp ≤ T) := by
      show (if s = "" then c.blocks else c.getHistory s).filter _ = _
      rw [if_neg hs]
    rw [he, filter_eq_takeWhile_of_mono _ T hmono]
    exact ⟨_, List.takeWhile_append_dropWhile _ _⟩
  · intro hs
    show (if s = "" then c.blocks else c.getHistory s) = c.getHistory s
    rw [if_neg hs]

/-- **C6 counterexample**: on a fresh chain, `replayEvents` at the
subject id `""` (with the timestamp omitted) returns the full block list
— the genesis block included — while `getHistory ""` is empty: the JS
truthiness test treats `''` like an omitted argument. -/
theorem replay_empty_subject_counterexample :
    (Chain.init 0).replayEvents (some "") none ≠
      (Chain.init 0).getHistory "" := by
  decide

/-- The requests used by the `replay_filter` witness: two blocks for
subject `"c1"` at timestamps 1 and 5. -/
def replayReqs : List AddReq :=
  [⟨1, "CREATE_CARD", "Card", "c1", "d1", "u1"⟩,
   ⟨5, "UPDATE_CARD", "Card", "c1", "d2", "u1"⟩]

/-- Witness for `replay_filter` at `s = "c1"`, `T = 3`. -/
theorem replay_filter_witness :
    ("c1" : String) ≠ "" ∧
    List.Pairwise (fun a b => a.timestamp ≤ b.timestamp)
      ((Chain.build 0 replayReqs).getHistory "c1") ∧
    (Chain.build 0 replayReqs).replayEvents (some "c1") (some 3) <+:
      (Chain.build 0 replayReqs).getHistory "c1" ∧
    (Chain.build 0 replayReqs).replayEvents (some "c1") none =
      (Chain.build 0 replayReqs).getHistory "c1" :=
  ⟨by decide, by decide,
    (replay_filter (Chain.build 0 replayReqs) "c1" 3).2.1 (by decide)
      (by decide),
    (replay_filter (Chain.build 0 replayReqs) "c1" 3).2.2 (by decide)⟩

/-- **C8** (serialization round-trip): `Block.fromJSON (b.toJSON())`
restores every field — in particular the timestamp value that
`toISOString()` serializes for hashing — so the recomputed hash and the
`isValid` verdict are unchanged; a valid block never spuriously fails
validation after the round-trip. -/
theorem serialization_roundtrip (b : Block) :
    Block.fromJSON (Block.toJSON b) = b ∧
    (Block.fromJSON (Block.toJSON b)).calculateHash = b.calculateHash ∧
    (Block.fromJSON (Block.toJSON b)).isValid = b.isValid :=
  ⟨rfl, rfl, rfl⟩

/-! ### CardRepository (`src/repositories/CardRepository.ts`) -/

/-- A `Card` (`src/types/index.ts`).  The optional `assigneeId?` and
`parentId?` fields are modelled as `String` with `""` standing for
`undefined`: the source only ever tests them for truthiness
(`if (card.assigneeId)`), and `""` and `undefined` are both falsy. -/
structure Card where
  id : String
  boardId : String
  columnId : String
  title : String
  description : String
  priority : String
  assigneeId : String
  parentId : String
  position : Nat
  tags : List String
  createdAt : Nat
  updatedAt : Nat
  createdBy : String
  deriving DecidableEq, Repr

/-- `CardRepository` state (`CardRepository.ts` lines 15-20).  The four
`Map`s of buckets are modelled extensionally as functions with the absent
key folded to `[]`; a `Set<string>` bucket and an ordered `string[]`
bucket are both duplicate-free lists in insertion order (`Set.add` and
push-if-absent coincide on that representation). -/
structure CardRepository where
  cards : String → Option Card
  boardIndex : String → List String
  columnIndex : String → List String
  userIndex : String → List String
  parentIndex : String → List String

/-- The fresh repository: all maps empty. -/
def CardRepository.empty : CardRepository :=
  { cards := fun _ => none, boardIndex := fun _ => []
    columnIndex := fun _ => [], userIndex := fun _ => []
    parentIndex := fun _ => [] }

/-- Add an id to the bucket of key `k` if not already present
(`Set.add`, and the `includes`-guarded `push` of the source). -/
def bucketAdd (idx : String → List String) (k : String) (i : String) :
    String → List String :=
  fun k' => if k' = k then (if i ∈ idx k then idx k else idx k ++ [i])
    else idx k'

/-- Remove an id from the bucket of key `k` (`Set.delete`, and the
`indexOf`/`splice` of the source: first occurrence). -/
def bucketRemove (idx : String → List String) (k : String) (i : String) :
    String → List String :=
  fun k' => if k' = k then (idx k).erase i else idx k'

/-- `CardRepository.updateIndices` (lines 183-217): board and column
buckets are updated unconditionally, user and parent buckets only when
the corresponding field is truthy. -/
def CardRepository.updateIndices (r : CardRepository) (card : Card) :
    CardRepository :=
  { r with
    boardIndex := bucketAdd r.boardIndex card.boardId card.id
    columnIndex := bucketAdd r.columnIndex card.columnId card.id
    userIndex := if card.assigneeId ≠ "" then
        bucketAdd r.userIndex card.assigneeId card.id
      else r.userIndex
    parentIndex := if card.parentId ≠ "" then
        bucketAdd r.parentIndex card.parentId card.id
      else r.parentIndex }

/-- `CardRepository.removeFromColumnIndex` (lines 238-253): when the id
is present in its column's bucket, splice it out and renumber the
`position` of every card remaining in that bucket to its index. -/
def CardRepository.removeFromColumnIndex (r : CardRepository)
    (card : Card) : CardRepository :=
  let columnCards := r.columnIndex card.columnId
  if card.id ∈ columnCards then
    let bucket := columnCards.erase card.id
    { r with
      columnIndex := fun k =>
        if k = card.columnId then bucket else r.columnIndex k
      cards := fun i => match r.cards i with
        | some c =>
          if i ∈ bucket then some { c with position := bucket.indexOf i }
          else some c
        | none => none }
  else r

/-- `CardRepository.removeFromUserIndex` (lines 255-259): guarded by the
truthiness of `card.assigneeId`. -/
def CardRepository.removeFromUserIndex (r : CardRepository)
    (card : Card) : CardRepository :=
  if card.assigneeId ≠ "" then
    { r with userIndex := bucketRemove r.userIndex card.assigneeId card.id }
  else r

/-- `CardRepository.removeFromIndices` (lines 222-236). -/
def CardRepository.removeFromIndices (r : CardRepository) (card : Card) :
    CardRepository :=
  let r1 := { r with
    boardIndex := bucketRemove r.boardIndex card.boardId card.id }
  let r2 := r1.removeFromColumnIndex card
  let r3 := r2.removeFromUserIndex card
  if card.parentId ≠ "" then
    { r3 with
      parentIndex := bucketRemove r3.parentIndex card.parentId card.id }
  else r3

/-- `CardRepository.create` (lines 30-42): sets `position` to the size of
the target column's bucket, stores the card, updates the indices. -/
def CardRepository.create (r : CardRepository) (card : Card) :
    CardRepository × Card :=
  let columnCards := r.columnIndex card.columnId
  let card' := { card with position := columnCards.length }
  let r' := { r with
    cards := fun i => if i = card'.id then some card' else r.cards i }
  (r'.updateIndices card', card')

/-- A `Partial<Card>` update object, one optional field per `Card`
field: `none` means the field is absent from the `updates` object. -/
structure CardPatch where
  id : Option String := none
  boardId : Option String := none
  columnId : Option String := none
  title : Option String := none
  description : Option String := none
  priority : Option String := none
  assigneeId : Option String := none
  parentId : Option String := none
  position : Option Nat := none
  tags : Option (List String) := none
  createdAt : Option Nat := none
  updatedAt : Option Nat := none
  createdBy : Option String := none
  deriving DecidableEq, Repr

/-- The spread `{ ...card, ...updates, updatedAt: new Date() }`: every
patch field overrides the card's, except `updatedAt`, which the explicit
trailing property overwrites with the clock value regardless of the
patch. -/
def mergeCard (card : Card) (p : CardPatch) (now : Nat) : Card :=
  { id := p.id.getD card.id
    boardId := p.boardId.getD card.boardId
    columnId := p.columnId.getD card.columnId
    title := p.title.getD card.title
    description := p.description.getD card.description
    priority := p.priority.getD card.priority
    assigneeId := p.assigneeId.getD card.assigneeId
    parentId := p.parentId.getD card.parentId
    position := p.position.getD card.position
    tags := p.tags.getD card.tags
    createdAt := p.createdAt.getD card.createdAt
    updatedAt := now
    createdBy := p.createdBy.getD card.createdBy }

/-- The JS guard `updates.f && updates.f !== card.f`: the patch field is
present, truthy (nonempty) and different from the current value. -/
def patchTruthyNe (pv : Option String) (old : String) : Bool :=
  match pv with
  | none => false
  | some v => if v ≠ "" ∧ v ≠ old then true else false

/-- `CardRepository.update` (lines 44-66): throws on an unknown id;
otherwise removes stale column/user bucket entries when those indexed
fields change to a truthy different value, merges, stores, and re-runs
`updateIndices`. -/
def CardRepository.update (r : CardRepository) (i : String)
    (p : CardPatch) (now : Nat) : Except String (CardRepository × Card) :=
  match r.cards i with
  | none => Except.error ("Card " ++ i ++ " not found")
  | some card =>
    let r1 := if patchTruthyNe p.columnId card.columnId then
        r.removeFromColumnIndex card
      else r
    let r2 := if patchTruthyNe p.assigneeId card.assigneeId then
        r1.removeFromUserIndex card
      else r1
    let updatedCard := mergeCard card p now
    let r3 := { r2 with
      cards := fun j => if j = i then some updatedCard else r2.cards j }
    Except.ok (r3.updateIndices updatedCard, updatedCard)

/-- `CardRepository.delete` (lines 68-81): `false` and no change on an
unknown id; otherwise removes the card from every index and from the
primary map. -/
def CardRepository.deleteCard (r : CardRepository) (i : String) :
    Bool × CardRepository :=
  match r.cards i with
  | none => (false, r)
  | some card =>
    let r1 := r.removeFromIndices card
    (true, { r1 with
      cards := fun j => if j = i then none else r1.cards j })

/-- `CardRepository.findByBoard` (lines 121-126): map the bucket's ids
through the primary map, dropping the misses. -/
def CardRepository.findByBoard (r : CardRepository) (boardId : String) :
    List Card :=
  (r.boardIndex boardId).filterMap r.cards

/-- `CardRepository.findByColumn` (lines 131-137): same, then sorted by
`position`. -/
def CardRepository.findByColumn (r : CardRepository) (columnId : String) :
    List Card :=
  ((r.columnIndex columnId).filterMap r.cards).mergeSort
    (fun a b => a.position ≤ b.position)

/-- `CardRepository.findByAssignee` (lines 142-147). -/
def CardRepository.findByAssignee (r : CardRepository)
    (assigneeId : String) : List Card :=
  (r.userIndex assigneeId).filterMap r.cards

/-- `CardRepository.findChildren` (lines 152-157). -/
def CardRepository.findChildren (r : CardRepository) (parentId : String) :
    List Card :=
  (r.parentIndex parentId).filterMap r.cards

/-- One repository operation. -/
inductive CardOp : Type where
  | create (card : Card)
  | update (i : String) (p : CardPatch) (now : Nat)
  | delete (i : String)
  deriving DecidableEq, Repr

/-- Run one operation; a thrown `update` error leaves the state as it
was (the exception propagates before any mutation). -/
def applyOp (r : CardRepository) : CardOp → CardRepository
  | .create card => (r.create card).1
  | .update i p now =>
    match r.update i p now with
    | .ok (r', _) => r'
    | .error _ => r
  | .delete i => (r.deleteCard i).2

/-- Run a sequence of operations from the fresh repository. -/
def applyOps (ops : List CardOp) : CardRepository :=
  ops.foldl applyOp CardRepository.empty

/-- The patch restrictions under which the indices stay exact: no `id`,
`boardId` or `parentId` rewrites (the source never removes stale index
entries for any of those), and no truthiness-defeating empty-string
writes to `columnId` or `assigneeId`.  Every other `Partial<Card>` field
(title, description, priority, position, tags, createdAt, updatedAt,
createdBy) may be patched freely. -/
def legalPatch (p : CardPatch) : Bool :=
  p.id == none && p.boardId == none && p.parentId == none &&
  (match p.columnId with | some v => v != "" | none => true) &&
  (match p.assigneeId with | some v => v != "" | none => true)

/-- Legality of one operation in a given state: `create` only with a
fresh id, `update` only with a legal patch. -/
def LegalOp (r : CardRepository) : CardOp → Prop
  | .create card => r.cards card.id = none
  | .update _ p _ => legalPatch p = true
  | .delete _ => True

/-- Legality of an operation sequence, each step judged in the state it
executes in. -/
def LegalOps (r : CardRepository) : List CardOp → Prop
  | [] => True
  | op :: rest => LegalOp r op ∧ LegalOps (applyOp r op) rest

/-! ### Bucket lemmas -/

theorem mem_bucketAdd {idx : String → List String} {k i k' j : String} :
    j ∈ bucketAdd idx k i k' ↔ j ∈ idx k' ∨ (k' = k ∧ j = i) := by
  unfold bucketAdd
  by_cases h : k' = k
  · subst h
    by_cases hm : i ∈ idx k'
    · rw [if_pos rfl, if_pos hm]
      constructor
      · exact fun hj => Or.inl hj
      · rintro (hj | ⟨-, rfl⟩)
        · exact hj
        · exact hm
    · rw [if_pos rfl, if_neg hm]
      simp
  · simp [h]

theorem mem_bucketRemove {idx : String → List String} {k i k' j : String}
    (hnd : (idx k).Nodup) :
    j ∈ bucketRemove idx k i k' ↔ j ∈ idx k' ∧ ¬(k' = k ∧ j = i) := by
  unfold bucketRemove
  by_cases h : k' = k
  · subst h
    rw [if_pos rfl, List.Nodup.mem_erase_iff hnd]
    tauto
  · simp [h]

theorem bucketAdd_nodup {idx : String → List String} {k i : String}
    (hnd : ∀ v, (idx v).Nodup) (k' : String) :
    (bucketAdd idx k i k').Nodup := by
  unfold bucketAdd
  by_cases h : k' = k
  · subst h
    by_cases hm : i ∈ idx k'
    · rw [if_pos rfl, if_pos hm]
      exact hnd k'
    · rw [if_pos rfl, if_neg hm]
      simp [List.nodup_append, hnd k', hm]
  · rw [if_neg h]
    exact hnd k'

theorem bucketRemove_nodup {idx : String → List String} {k i : String}
    (hnd : ∀ v, (idx v).Nodup) (k' : String) :
    (bucketRemove idx k i k').Nodup := by
  unfold bucketRemove
  by_cases h : k' = k
  · rw [if_pos h]
    exact (hnd k).erase i
  · rw [if_neg h]
    exact hnd k'

/-! ### Position renumbering changes no key field -/

/-- Two card values agreeing on every indexed key field (only `position`
and non-indexed payload may differ). -/
def SameKeys (c c' : Card) : Prop :=
  c'.id = c.id ∧ c'.boardId = c.boardId ∧ c'.columnId = c.columnId ∧
    c'.assigneeId = c.assigneeId ∧ c'.parentId = c.parentId

/-- Pointwise relation between two primary maps where each entry was at
most renumbered. -/
def PosOnly (f g : String → Option Card) : Prop :=
  ∀ j, (f j = none ∧ g j = none) ∨
    ∃ c c', f j = some c ∧ g j = some c' ∧ SameKeys c c'

theorem posOnly_refl (f : String → Option Card) : PosOnly f f := by
  intro j
  cases h : f j with
  | none => exact Or.inl ⟨rfl, rfl⟩
  | some c => exact Or.inr ⟨c, c, rfl, rfl, rfl, rfl, rfl, rfl, rfl⟩

theorem posOnly_exists_sel {f g : String → Option Card} (hp : PosOnly f g)
    (sel : Card → String)
    (hsel : ∀ c c', SameKeys c c' → sel c' = sel c) (j v : String) :
    (∃ c, g j = some c ∧ sel c = v) ↔ ∃ c, f j = some c ∧ sel c = v := by
  rcases hp j with ⟨hf, hg⟩ | ⟨c, c', hf, hg, hk⟩
  · rw [hf, hg]
  · rw [hf, hg]
    constructor
    · rintro ⟨d, hd, hs⟩
      cases hd
      exact ⟨c, rfl, by rw [← hsel c c' hk]; exact hs⟩
    · rintro ⟨d, hd, hs⟩
      cases hd
      exact ⟨c', rfl, by rw [hsel c c' hk]; exact hs⟩

theorem posOnly_keyId {f g : String → Option Card} (hp : PosOnly f g)
    (hk : ∀ j c, f j = some c → c.id = j) :
    ∀ j c, g j = some c → c.id = j := by
  intro j c hg
  rcases hp j with ⟨-, hg0⟩ | ⟨d, d', hf, hg0, hkk⟩
  · rw [hg0] at hg
    cases hg
  · rw [hg0] at hg
    cases hg
    rw [hkk.1]
    exact hk j d hf

theorem exists_cards_some {cards : String → Option Card} {j : String}
    {card : Card} (hc : cards j = some card) (sel : Card → String)
    (v : String) :
    (∃ c, cards j = some c ∧ sel c = v) ↔ sel card = v := by
  rw [hc]
  constructor
  · rintro ⟨c, hcc, hs⟩
    cases hcc
    exact hs
  · intro hs
    exact ⟨card, rfl, hs⟩

theorem exists_cards_none {cards : String → Option Card} {j : String}
    (hc : cards j = none) (sel : Card → String) (v : String) :
    (∃ c, cards j = some c ∧ sel c = v) ↔ False := by
  rw [hc]
  simp

/-! ### Field projections of the removal helpers -/

theorem rfci_boardIndex (r : CardRepository) (card : Card) :
    (r.removeFromColumnIndex card).boardIndex = r.boardIndex := by
  by_cases h : card.id ∈ r.columnIndex card.columnId <;>
    simp [CardRepository.removeFromColumnIndex, h]

theorem rfci_userIndex (r : CardRepository) (card : Card) :
    (r.removeFromColumnIndex card).userIndex = r.userIndex := by
  by_cases h : card.id ∈ r.columnIndex card.columnId <;>
    simp [CardRepository.removeFromColumnIndex, h]

theorem rfci_parentIndex (r : CardRepository) (card : Card) :
    (r.removeFromColumnIndex card).parentIndex = r.parentIndex := by
  by_cases h : card.id ∈ r.columnIndex card.columnId <;>
    simp [CardRepository.removeFromColumnIndex, h]

theorem rfci_columnIndex (r : CardRepository) (card : Card) :
    (r.removeFromColumnIndex card).columnIndex =
      if card.id ∈ r.columnIndex card.columnId then
        bucketRemove r.columnIndex card.columnId card.id
      else r.columnIndex := by
  by_cases h : card.id ∈ r.columnIndex card.columnId
  · rw [if_pos h]
    funext k
    simp [CardRepository.removeFromColumnIndex, bucketRemove, h]
  · rw [if_neg h]
    simp [CardRepository.removeFromColumnIndex, h]

theorem rfci_cards_posOnly (r : CardRepository) (card : Card) :
    PosOnly r.cards (r.removeFromColumnIndex card).cards := by
  by_cases h : card.id ∈ r.columnIndex card.columnId
  · intro j
    cases hc : r.cards j with
    | none =>
      exact Or.inl ⟨rfl, by
        simp [CardRepository.removeFromColumnIndex, h, hc]⟩
    | some c =>
      refine Or.inr ?_
      by_cases hm : j ∈ (r.columnIndex card.columnId).erase card.id
      · refine ⟨c,
          { c with position :=
              ((r.columnIndex card.columnId).erase card.id).indexOf j },
          rfl, ?_, rfl, rfl, rfl, rfl, rfl⟩
        simp [CardRepository.removeFromColumnIndex, h, hc, hm]
      · refine ⟨c, c, rfl, ?_, rfl, rfl, rfl, rfl, rfl⟩
        simp [CardRepository.removeFromColumnIndex, h, hc, hm]
  · have heq : r.removeFromColumnIndex card = r := by
      simp [CardRepository.removeFromColumnIndex, h]
    rw [heq]
    exact posOnly_refl r.cards

theorem rfui_cards (r : CardRepository) (card : Card) :
    (r.removeFromUserIndex card).cards = r.cards := by
  unfold CardRepository.removeFromUserIndex
  split <;> rfl

theorem rfui_boardIndex (r : CardRepository) (card : Card) :
    (r.removeFromUserIndex card).boardIndex = r.boardIndex := by
  unfold CardRepository.removeFromUserIndex
  split <;> rfl

theorem rfui_columnIndex (r : CardRepository) (card : Card) :
    (r.removeFromUserIndex card).columnIndex = r.columnIndex := by
  unfold CardRepository.removeFromUserIndex
  split <;> rfl

theorem rfui_parentIndex (r : CardRepository) (card : Card) :
    (r.removeFromUserIndex card).parentIndex = r.parentIndex := by
  unfold CardRepository.removeFromUserIndex
  split <;> rfl

theorem rfui_userIndex (r : CardRepository) (card : Card) :
    (r.removeFromUserIndex card).userIndex =
      if card.assigneeId ≠ "" then
        bucketRemove r.userIndex card.assigneeId card.id
      else r.userIndex := by
  unfold CardRepository.removeFromUserIndex
  split <;> simp_all

/-! ### Generic index-consistency transfer lemmas -/

/-- An index is exact for a key selector over the primary map, on the
key values satisfying `P` (all values for board/column, the truthy ones
for user/parent). -/
def IdxChar (P : String → Prop) (idx : String → List String)
    (cards : String → Option Card) (sel : Card → String) : Prop :=
  ∀ v j, P v → (j ∈ idx v ↔ ∃ c, cards j = some c ∧ sel c = v)

/-- Storing `card'` under `i` and adding `i` to the bucket of its key
keeps the index exact, provided the other entries were exact and any
bucket already holding `i` is the new key's own. -/
theorem idxChar_addSet {P : String → Prop} {idx0 : String → List String}
    {cardsMid : String → Option Card} {sel : Card → String}
    (card' : Card) (i : String) (hid : card'.id = i)
    (hmid : ∀ v j, P v → j ≠ i →
      (j ∈ idx0 v ↔ ∃ c, cardsMid j = some c ∧ sel c = v))
    (hstale : ∀ v, P v → i ∈ idx0 v → v = sel card') :
    IdxChar P (bucketAdd idx0 (sel card') i)
      (fun j => if j = i then some card' else cardsMid j) sel := by
  intro v j hv
  beta_reduce
  rw [mem_bucketAdd]
  by_cases hj : j = i
  · subst hj
    rw [if_pos rfl]
    constructor
    · rintro (hmem | ⟨h1, -⟩)
      · exact ⟨card', rfl, (hstale v hv hmem).symm⟩
      · exact ⟨card', rfl, h1.symm⟩
    · rintro ⟨c, hc, hs⟩
      cases hc
      exact Or.inr ⟨hs.symm, rfl⟩
  · rw [if_neg hj, hmid v j hv hj]
    constructor
    · rintro (h | ⟨-, hji⟩)
      · exact h
      · exact absurd hji hj
    · exact Or.inl

/-- Storing `card'` under `i` without touching the index keeps it exact,
when `i` is in no `P`-bucket and the new key is outside `P` (the falsy
field of a guarded index). -/
theorem idxChar_skipSet {P : String → Prop} {idx0 : String → List String}
    {cardsMid : String → Option Card} {sel : Card → String}
    (card' : Card) (i : String)
    (hmid : ∀ v j, P v → j ≠ i →
      (j ∈ idx0 v ↔ ∃ c, cardsMid j = some c ∧ sel c = v))
    (hne : ∀ v, P v → sel card' ≠ v)
    (hstale : ∀ v, P v → i ∉ idx0 v) :
    IdxChar P idx0
      (fun j => if j = i then some card' else cardsMid j) sel := by
  intro v j hv
  beta_reduce
  by_cases hj : j = i
  · subst hj
    rw [if_pos rfl]
    constructor
    · intro hmem
      exact absurd hmem (hstale v hv)
    · rintro ⟨c, hc, hs⟩
      cases hc
      exact absurd hs (hne v hv)
  · rw [if_neg hj]
    exact hmid v j hv hj

/-- Removing the entry of `i` from the primary map keeps an index exact
once `i` is in no `P`-bucket. -/
theorem idxChar_removeSet {P : String → Prop} {idx0 : String → List String}
    {cardsMid : String → Option Card} {sel : Card → String} (i : String)
    (hmid : ∀ v j, P v → j ≠ i →
      (j ∈ idx0 v ↔ ∃ c, cardsMid j = some c ∧ sel c = v))
    (hstale : ∀ v, P v → i ∉ idx0 v) :
    IdxChar P idx0
      (fun j => if j = i then none else cardsMid j) sel := by
  intro v j hv
  beta_reduce
  by_cases hj : j = i
  · subst hj
    rw [if_pos rfl]
    constructor
    · intro hmem
      exact absurd hmem (hstale v hv)
    · rintro ⟨c, hc, -⟩
      cases hc
  · rw [if_neg hj]
    exact hmid v j hv hj

/-- The index-consistency invariant maintained by legal operation
sequences: every secondary index is exact for its key selector (user and
parent buckets only for truthy key values), ids stored under their own
key, all buckets duplicate-free. -/
structure RepoInv (r : CardRepository) : Prop where
  keyId : ∀ j c, r.cards j = some c → c.id = j
  board : IdxChar (fun _ => True) r.boardIndex r.cards
    (fun c => c.boardId)
  column : IdxChar (fun _ => True) r.columnIndex r.cards
    (fun c => c.columnId)
  user : IdxChar (fun v => v ≠ "") r.userIndex r.cards
    (fun c => c.assigneeId)
  parent : IdxChar (fun v => v ≠ "") r.parentIndex r.cards
    (fun c => c.parentId)
  boardND : ∀ v, (r.boardIndex v).Nodup
  columnND : ∀ v, (r.columnIndex v).Nodup
  userND : ∀ v, (r.userIndex v).Nodup
  parentND : ∀ v, (r.parentIndex v).Nodup

theorem repoInv_empty : RepoInv CardRepository.empty := by
  refine ⟨?_, ?_, ?_, ?_, ?_, ?_, ?_, ?_, ?_⟩ <;>
    simp [CardRepository.empty, IdxChar]

theorem repoInv_create (r : CardRepository) (hr : RepoInv r) (card : Card)
    (hfresh : r.cards card.id = none) :
    RepoInv (r.create card).1 := by
  set card' := { card with
    position := (r.columnIndex card.columnId).length } with hcd
  have hstaleB : ∀ v, card.id ∈ r.boardIndex v → False := by
    intro v hmem
    rcases (hr.board v card.id trivial).mp hmem with ⟨c, hc, -⟩
    rw [hfresh] at hc
    cases hc
  have hstaleC : ∀ v, card.id ∈ r.columnIndex v → False := by
    intro v hmem
    rcases (hr.column v card.id trivial).mp hmem with ⟨c, hc, -⟩
    rw [hfresh] at hc
    cases hc
  have hstaleU : ∀ v, v ≠ "" → card.id ∉ r.userIndex v := by
    intro v hv hmem
    rcases (hr.user v card.id hv).mp hmem with ⟨c, hc, -⟩
    rw [hfresh] at hc
    cases hc
  have hstaleP : ∀ v, v ≠ "" → card.id ∉ r.parentIndex v := by
    intro v hv hmem
    rcases (hr.parent v card.id hv).mp hmem with ⟨c, hc, -⟩
    rw [hfresh] at hc
    cases hc
  refine ⟨?_, ?_, ?_, ?_, ?_, ?_, ?_, ?_, ?_⟩
  · intro j c h
    have h' : (if j = card.id then some card' else r.cards j) = some c := h
    by_cases hj : j = card.id
    · rw [if_pos hj] at h'
      cases h'
      exact hj.symm
    · rw [if_neg hj] at h'
      exact hr.keyId j c h'
  · exact idxChar_addSet card' card.id rfl
      (fun v j _ hj => hr.board v j trivial)
      (fun v _ hmem => absurd hmem (fun h => hstaleB v h))
  · exact idxChar_addSet card' card.id rfl
      (fun v j _ hj => hr.column v j trivial)
      (fun v _ hmem => absurd hmem (fun h => hstaleC v h))
  · by_cases ha : card.assigneeId = ""
    · have hU : (r.create card).1.userIndex = r.userIndex := by
        show (if card'.assigneeId ≠ "" then _ else _) = _
        rw [if_neg (by simp [hcd, ha])]
      rw [hU]
      exact idxChar_skipSet card' card.id
        (fun v j hv hj => hr.user v j hv)
        (fun v hv heq => hv (by rw [← heq]; exact ha))
        hstaleU
    · have hU : (r.create card).1.userIndex =
          bucketAdd r.userIndex card'.assigneeId card'.id := by
        show (if card'.assigneeId ≠ "" then _ else _) = _
        rw [if_pos (by simp [hcd, ha])]
      rw [hU]
      exact idxChar_addSet card' card.id rfl
        (fun v j hv hj => hr.user v j hv)
        (fun v hv hmem => absurd hmem (hstaleU v hv))
  · by_cases hpp : card.parentId = ""
    · have hP : (r.create card).1.parentIndex = r.parentIndex := by
        show (if card'.parentId ≠ "" then _ else _) = _
        rw [if_neg (by simp [hcd, hpp])]
      rw [hP]
      exact idxChar_skipSet card' card.id
        (fun v j hv hj => hr.parent v j hv)
        (fun v hv heq => hv (by rw [← heq]; exact hpp))
        hstaleP
    · have hP : (r.create card).1.parentIndex =
          bucketAdd r.parentIndex card'.parentId card'.id := by
        show (if card'.parentId ≠ "" then _ else _) = _
        rw [if_pos (by simp [hcd, hpp])]
      rw [hP]
      exact idxChar_addSet card' card.id rfl
        (fun v j hv hj => hr.parent v j hv)
        (fun v hv hmem => absurd hmem (hstaleP v hv))
  · exact fun v => bucketAdd_nodup hr.boardND v
  · exact fun v => bucketAdd_nodup hr.columnND v
  · intro v
    by_cases ha : card.assigneeId = ""
    · have hU : (r.create card).1.userIndex = r.userIndex := by
        show (if card'.assigneeId ≠ "" then _ else _) = _
        rw [if_neg (by simp [hcd, ha])]
      rw [hU]
      exact hr.userND v
    · have hU : (r.create card).1.userIndex =
          bucketAdd r.userIndex card'.assigneeId card'.id := by
        show (if card'.assigneeId ≠ "" then _ else _) = _
        rw [if_pos (by simp [hcd, ha])]
      rw [hU]
      exact bucketAdd_nodup hr.userND v
  · intro v
    by_cases hpp : card.parentId = ""
    · have hP : (r.create card).1.parentIndex = r.parentIndex := by
        show (if card'.parentId ≠ "" then _ else _) = _
        rw [if_neg (by simp [hcd, hpp])]
      rw [hP]
      exact hr.parentND v
    · have hP : (r.create card).1.parentIndex =
          bucketAdd r.parentIndex card'.parentId card'.id := by
        show (if card'.parentId ≠ "" then _ else _) = _
        rw [if_pos (by simp [hcd, hpp])]
      rw [hP]
      exact bucketAdd_nodup hr.parentND v

theorem rfis_boardIndex (r : CardRepository) (card : Card) :
    (r.removeFromIndices card).boardIndex =
      bucketRemove r.boardIndex card.boardId card.id := by
  unfold CardRepository.removeFromIndices
  by_cases hpar : card.parentId = "" <;>
    simp [hpar, rfci_boardIndex, rfui_boardIndex]

theorem rfis_columnIndex (r : CardRepository) (card : Card) :
    (r.removeFromIndices card).columnIndex =
      if card.id ∈ r.columnIndex card.columnId then
        bucketRemove r.columnIndex card.columnId card.id
      else r.columnIndex := by
  unfold CardRepository.removeFromIndices
  by_cases hpar : card.parentId = "" <;>
    simp [hpar, rfci_columnIndex, rfui_columnIndex]

theorem rfis_userIndex (r : CardRepository) (card : Card) :
    (r.removeFromIndices card).userIndex =
      if card.assigneeId ≠ "" then
        bucketRemove r.userIndex card.assigneeId card.id
      else r.userIndex := by
  unfold CardRepository.removeFromIndices
  by_cases hpar : card.parentId = "" <;>
    simp [hpar, rfui_userIndex, rfci_userIndex]

theorem rfis_parentIndex (r : CardRepository) (card : Card) :
    (r.removeFromIndices card).parentIndex =
      if card.parentId ≠ "" then
        bucketRemove r.parentIndex card.parentId card.id
      else r.parentIndex := by
  unfold CardRepository.removeFromIndices
  by_cases hpar : card.parentId = "" <;>
    simp [hpar, rfui_parentIndex, rfci_parentIndex]

theorem rfis_cards_posOnly (r : CardRepository) (card : Card) :
    PosOnly r.cards (r.removeFromIndices card).cards := by
  have hcc : (r.removeFromIndices card).cards =
      (({ r with boardIndex :=
          bucketRemove r.boardIndex card.boardId card.id } :
        CardRepository).removeFromColumnIndex card).cards := by
    unfold CardRepository.removeFromIndices
    by_cases hpar : card.parentId = "" <;> simp [hpar, rfui_cards]
  rw [hcc]
  exact rfci_cards_posOnly
    { r with boardIndex := bucketRemove r.boardIndex card.boardId card.id }
    card

theorem repoInv_delete (r : CardRepository) (hr : RepoInv r) (i : String) :
    RepoInv (r.deleteCard i).2 := by
  cases hcard : r.cards i with
  | none =>
    have heq : (r.deleteCard i).2 = r := by
      simp [CardRepository.deleteCard, hcard]
    rw [heq]
    exact hr
  | some card =>
    have hid : card.id = i := hr.keyId i card hcard
    have hcards : r.cards card.id = some card := by rw [hid]; exact hcard
    set r1 := r.removeFromIndices card with hr1
    have hstate : (r.deleteCard i).2 =
        { r1 with cards := fun j => if j = i then none else r1.cards j } := by
      simp [CardRepository.deleteCard, hcard, hr1]
    rw [hstate]
    have hpos : PosOnly r.cards r1.cards := rfis_cards_posOnly r card
    have hmemcol : card.id ∈ r.columnIndex card.columnId :=
      (hr.column card.columnId card.id trivial).mpr ⟨card, hcards, rfl⟩
    have hCI : r1.columnIndex =
        bucketRemove r.columnIndex card.columnId card.id := by
      rw [hr1, rfis_columnIndex, if_pos hmemcol]
    refine ⟨?_, ?_, ?_, ?_, ?_, ?_, ?_, ?_, ?_⟩
    · intro j c h
      have h' : (if j = i then none else r1.cards j) = some c := h
      by_cases hj : j = i
      · rw [if_pos hj] at h'
        cases h'
      · rw [if_neg hj] at h'
        exact posOnly_keyId hpos hr.keyId j c h'
    · show IdxChar _ r1.boardIndex _ _
      rw [hr1, rfis_boardIndex]
      refine idxChar_removeSet i ?_ ?_
      · intro v j _ hj
        rw [mem_bucketRemove (hr.boardND card.boardId)]
        rw [show j ∈ r.boardIndex v ↔ _ from hr.board v j trivial]
        rw [posOnly_exists_sel hpos (fun c => c.boardId)
          (fun c c' hk => hk.2.1) j v]
        have : ¬(v = card.boardId ∧ j = card.id) ↔ True := by
          simp [hid, hj]
        tauto
      · intro v _ hmem
        rw [← hid] at hmem
        rcases (mem_bucketRemove (hr.boardND card.boardId)).mp hmem
          with ⟨hin, hno⟩
        rcases (hr.board v card.id trivial).mp hin with ⟨c, hc, hs⟩
        rw [hcards] at hc
        cases hc
        exact hno ⟨hs.symm, rfl⟩
    · show IdxChar _ r1.columnIndex _ _
      rw [hCI]
      refine idxChar_removeSet i ?_ ?_
      · intro v j _ hj
        rw [mem_bucketRemove (hr.columnND card.columnId)]
        rw [show j ∈ r.columnIndex v ↔ _ from hr.column v j trivial]
        rw [posOnly_exists_sel hpos (fun c => c.columnId)
          (fun c c' hk => hk.2.2.1) j v]
        have : ¬(v = card.columnId ∧ j = card.id) ↔ True := by
          simp [hid, hj]
        tauto
      · intro v _ hmem
        rw [← hid] at hmem
        rcases (mem_bucketRemove (hr.columnND card.columnId)).mp hmem
          with ⟨hin, hno⟩
        rcases (hr.column v card.id trivial).mp hin with ⟨c, hc, hs⟩
        rw [hcards] at hc
        cases hc
        exact hno ⟨hs.symm, rfl⟩
    · show IdxChar _ r1.userIndex _ _
      rw [hr1, rfis_userIndex]
      by_cases ha : card.assigneeId = ""
      · rw [if_neg (by simp [ha])]
        refine idxChar_removeSet i ?_ ?_
        · intro v j hv hj
          rw [show j ∈ r.userIndex v ↔ _ from hr.user v j hv]
          exact (posOnly_exists_sel hpos (fun c => c.assigneeId)
            (fun c c' hk => hk.2.2.2.1) j v).symm
        · intro v hv hmem
          rcases (hr.user v i hv).mp hmem with ⟨c, hc, hs⟩
          rw [hcard] at hc
          cases hc
          beta_reduce at hs
          rw [ha] at hs
          exact hv hs.symm
      · rw [if_pos (by simp [ha])]
        refine idxChar_removeSet i ?_ ?_
        · intro v j hv hj
          rw [mem_bucketRemove (hr.userND card.assigneeId)]
          rw [show j ∈ r.userIndex v ↔ _ from hr.user v j hv]
          rw [posOnly_exists_sel hpos (fun c => c.assigneeId)
            (fun c c' hk => hk.2.2.2.1) j v]
          have : ¬(v = card.assigneeId ∧ j = card.id) ↔ True := by
            simp [hid, hj]
          tauto
        · intro v hv hmem
          rw [← hid] at hmem
          rcases (mem_bucketRemove (hr.userND card.assigneeId)).mp hmem
            with ⟨hin, hno⟩
          rcases (hr.user v card.id hv).mp hin with ⟨c, hc, hs⟩
          rw [hcards] at hc
          cases hc
          exact hno ⟨hs.symm, rfl⟩
    · show IdxChar _ r1.parentIndex _ _
      rw [hr1, rfis_parentIndex]
      by_cases hpp : card.parentId = ""
      · rw [if_neg (by simp [hpp])]
        refine idxChar_removeSet i ?_ ?_
        · intro v j hv hj
          rw [show j ∈ r.parentIndex v ↔ _ from hr.parent v j hv]
          exact (posOnly_exists_sel hpos (fun c => c.parentId)
            (fun c c' hk => hk.2.2.2.2) j v).symm
        · intro v hv hmem
          rcases (hr.parent v i hv).mp hmem with ⟨c, hc, hs⟩
          rw [hcard] at hc
          cases hc
          beta_reduce at hs
          rw [hpp] at hs
          exact hv hs.symm
      · rw [if_pos (by simp [hpp])]
        refine idxChar_removeSet i ?_ ?_
        · intro v j hv hj
          rw [mem_bucketRemove (hr.parentND card.parentId)]
          rw [show j ∈ r.parentIndex v ↔ _ from hr.parent v j hv]
          rw [posOnly_exists_sel hpos (fun c => c.parentId)
            (fun c c' hk => hk.2.2.2.2) j v]
          have : ¬(v = card.parentId ∧ j = card.id) ↔ True := by
            simp [hid, hj]
          tauto
        · intro v hv hmem
          rw [← hid] at hmem
          rcases (mem_bucketRemove (hr.parentND card.parentId)).mp hmem
            with ⟨hin, hno⟩
          rcases (hr.parent v card.id hv).mp hin with ⟨c, hc, hs⟩
          rw [hcards] at hc
          cases hc
          exact hno ⟨hs.symm, rfl⟩
    · show ∀ v, (r1.boardIndex v).Nodup
      rw [hr1, rfis_boardIndex]
      exact bucketRemove_nodup hr.boardND
    · show ∀ v, (r1.columnIndex v).Nodup
      rw [hCI]
      exact bucketRemove_nodup hr.columnND
    · show ∀ v, (r1.userIndex v).Nodup
      rw [hr1, rfis_userIndex]
      by_cases ha : card.assigneeId = ""
      · rw [if_neg (by simp [ha])]
        exact hr.userND
      · rw [if_pos (by simp [ha])]
        exact bucketRemove_nodup hr.userND
    · show ∀ v, (r1.parentIndex v).Nodup
      rw [hr1, rfis_parentIndex]
      by_cases hpp : card.parentId = ""
      · rw [if_neg (by simp [hpp])]
        exact hr.parentND
      · rw [if_pos (by simp [hpp])]
        exact bucketRemove_nodup hr.parentND

theorem patchTruthyNe_true {pv : Option String} {old : String}
    (h : patchTruthyNe pv old = true) :
    ∃ v, pv = some v ∧ v ≠ "" ∧ v ≠ old := by
  cases pv with
  | none => simp [patchTruthyNe] at h
  | some v =>
    refine ⟨v, rfl, ?_⟩
    by_cases hc : v ≠ "" ∧ v ≠ old
    · exact hc
    · rw [patchTruthyNe, if_neg hc] at h
      cases h

theorem merge_eq_of_not_truthyNe {pv : Option String} {old : String}
    (h : ¬ patchTruthyNe pv old = true)
    (hleg : ∀ v, pv = some v → v ≠ "") :
    pv.getD old = old := by
  cases pv with
  | none => rfl
  | some v =>
    by_cases he : v = old
    · simpa using he
    · exact absurd (by rw [patchTruthyNe, if_pos ⟨hleg v rfl, he⟩]) h

theorem repoInv_update (r : CardRepository) (hr : RepoInv r) (i : String)
    (p : CardPatch) (now : Nat) (hp : legalPatch p = true) :
    RepoInv (applyOp r (.update i p now)) := by
  cases hcard : r.cards i with
  | none =>
    have heq : applyOp r (.update i p now) = r := by
      simp [applyOp, CardRepository.update, hcard]
    rw [heq]
    exact hr
  | some card =>
    have h1 := hp
    rw [legalPatch, Bool.and_eq_true, Bool.and_eq_true, Bool.and_eq_true,
      Bool.and_eq_true] at h1
    obtain ⟨⟨⟨⟨h01, ha1⟩, hb1⟩, hc1⟩, hd1⟩ := h1
    have hpid : p.id = none := by simpa using h01
    have hpb : p.boardId = none := by simpa using ha1
    have hppar : p.parentId = none := by simpa using hb1
    have hpcol : ∀ v, p.columnId = some v → v ≠ "" := by
      intro v hv
      rw [hv] at hc1
      simpa using hc1
    have hpass : ∀ v, p.assigneeId = some v → v ≠ "" := by
      intro v hv
      rw [hv] at hd1
      simpa using hd1
    have hid : card.id = i := hr.keyId i card hcard
    have hcards : r.cards card.id = some card := by rw [hid]; exact hcard
    set newCard := mergeCard card p now with hnc
    have hnid : newCard.id = i := by
      show p.id.getD card.id = i
      rw [hpid]
      exact hid
    have hnb : newCard.boardId = card.boardId := by
      show p.boardId.getD card.boardId = card.boardId
      rw [hpb]
      rfl
    have hnp : newCard.parentId = card.parentId := by
      show p.parentId.getD card.parentId = card.parentId
      rw [hppar]
      rfl
    set r1 := (if patchTruthyNe p.columnId card.columnId then
      r.removeFromColumnIndex card else r : CardRepository) with hdef1
    set r2 := (if patchTruthyNe p.assigneeId card.assigneeId then
      r1.removeFromUserIndex card else r1 : CardRepository) with hdef2
    have happ : applyOp r (.update i p now) =
        CardRepository.updateIndices
          { r2 with
            cards := fun j => if j = i then some newCard else r2.cards j }
          newCard := by
      show (match r.update i p now with
        | .ok (rr, _) => rr
        | .error _ => r) = _
      have hupd : r.update i p now = Except.ok
          (CardRepository.updateIndices
            { r2 with
              cards := fun j => if j = i then some newCard else r2.cards j }
            newCard, newCard) := by
        unfold CardRepository.update
        rw [hcard]
      rw [hupd]
    rw [happ]
    have hcards1 : PosOnly r.cards r1.cards := by
      rw [hdef1]
      by_cases hcol : patchTruthyNe p.columnId card.columnId = true
      · rw [if_pos hcol]
        exact rfci_cards_posOnly r card
      · rw [if_neg hcol]
        exact posOnly_refl r.cards
    have hcards2 : r2.cards = r1.cards := by
      rw [hdef2]
      by_cases hass : patchTruthyNe p.assigneeId card.assigneeId = true
      · rw [if_pos hass]
        exact rfui_cards r1 card
      · rw [if_neg hass]
    have hpos2 : PosOnly r.cards r2.cards := by
      rw [hcards2]
      exact hcards1
    have hB2 : r2.boardIndex = r.boardIndex := by
      have hB1 : r1.boardIndex = r.boardIndex := by
        rw [hdef1]
        by_cases hcol : patchTruthyNe p.columnId card.columnId = true
        · rw [if_pos hcol]
          exact rfci_boardIndex r card
        · rw [if_neg hcol]
      rw [hdef2]
      by_cases hass : patchTruthyNe p.assigneeId card.assigneeId = true
      · rw [if_pos hass, rfui_boardIndex]
        exact hB1
      · rw [if_neg hass]
        exact hB1
    have hP2 : r2.parentIndex = r.parentIndex := by
      have hP1 : r1.parentIndex = r.parentIndex := by
        rw [hdef1]
        by_cases hcol : patchTruthyNe p.columnId card.columnId = true
        · rw [if_pos hcol]
          exact rfci_parentIndex r card
        · rw [if_neg hcol]
      rw [hdef2]
      by_cases hass : patchTruthyNe p.assigneeId card.assigneeId = true
      · rw [if_pos hass, rfui_parentIndex]
        exact hP1
      · rw [if_neg hass]
        exact hP1
    have hC2 : r2.columnIndex = r1.columnIndex := by
      rw [hdef2]
      by_cases hass : patchTruthyNe p.assigneeId card.assigneeId = true
      · rw [if_pos hass, rfui_columnIndex]
      · rw [if_neg hass]
    have hU1 : r1.userIndex = r.userIndex := by
      rw [hdef1]
      by_cases hcol : patchTruthyNe p.columnId card.columnId = true
      · rw [if_pos hcol]
        exact rfci_userIndex r card
      · rw [if_neg hcol]
    have hmemcol : card.id ∈ r.columnIndex card.columnId :=
      (hr.column card.columnId card.id trivial).mpr ⟨card, hcards, rfl⟩
    refine ⟨?_, ?_, ?_, ?_, ?_, ?_, ?_, ?_, ?_⟩
    · -- keyId
      intro j c h
      have h' : (if j = i then some newCard else r2.cards j) = some c := h
      by_cases hj : j = i
      · rw [if_pos hj] at h'
        cases h'
        rw [hj]
        exact hnid
      · rw [if_neg hj] at h'
        rw [hcards2] at h'
        exact posOnly_keyId hcards1 hr.keyId j c h'
    · -- board
      show IdxChar _ (bucketAdd r2.boardIndex newCard.boardId newCard.id) _ _
      rw [hB2, hnid]
      refine idxChar_addSet newCard i hnid ?_ ?_
      · intro v j _ hj
        rw [show j ∈ r.boardIndex v ↔ _ from hr.board v j trivial]
        exact (posOnly_exists_sel hpos2 (fun c => c.boardId)
          (fun c c' hk => hk.2.1) j v).symm
      · intro v _ hmem
        rcases (hr.board v i trivial).mp hmem with ⟨c, hc, hs⟩
        rw [hcard] at hc
        cases hc
        rw [hnb]
        exact hs.symm
    · -- column
      show IdxChar _ (bucketAdd r2.columnIndex newCard.columnId newCard.id) _ _
      rw [hC2, hnid]
      by_cases hcol : patchTruthyNe p.columnId card.columnId = true
      · obtain ⟨v0, hv0, hv0ne, hv0old⟩ := patchTruthyNe_true hcol
        have hnewcol : newCard.columnId = v0 := by
          show p.columnId.getD card.columnId = v0
          rw [hv0]
          rfl
        have hC1 : r1.columnIndex =
            bucketRemove r.columnIndex card.columnId card.id := by
          rw [hdef1, if_pos hcol, rfci_columnIndex, if_pos hmemcol]
        rw [hC1]
        refine idxChar_addSet newCard i hnid ?_ ?_
        · intro v j _ hj
          rw [mem_bucketRemove (hr.columnND card.columnId)]
          rw [show j ∈ r.columnIndex v ↔ _ from hr.column v j trivial]
          rw [posOnly_exists_sel hpos2 (fun c => c.columnId)
            (fun c c' hk => hk.2.2.1) j v]
          have hnn : ¬(v = card.columnId ∧ j = card.id) ↔ True := by
            simp [hid, hj]
          tauto
        · intro v _ hmem
          rw [← hid] at hmem
          rcases (mem_bucketRemove (hr.columnND card.columnId)).mp hmem
            with ⟨hin, hno⟩
          rcases (hr.column v card.id trivial).mp hin with ⟨c, hc, hs⟩
          rw [hcards] at hc
          cases hc
          exact absurd ⟨hs.symm, rfl⟩ hno
      · have hnewcol : newCard.columnId = card.columnId := by
          show p.columnId.getD card.columnId = card.columnId
          exact merge_eq_of_not_truthyNe hcol hpcol
        have hC1 : r1.columnIndex = r.columnIndex := by
          rw [hdef1, if_neg hcol]
        rw [hC1]
        refine idxChar_addSet newCard i hnid ?_ ?_
        · intro v j _ hj
          rw [show j ∈ r.columnIndex v ↔ _ from hr.column v j trivial]
          exact (posOnly_exists_sel hpos2 (fun c => c.columnId)
            (fun c c' hk => hk.2.2.1) j v).symm
        · intro v _ hmem
          rcases (hr.column v i trivial).mp hmem with ⟨c, hc, hs⟩
          rw [hcard] at hc
          cases hc
          rw [hnewcol]
          exact hs.symm
    · -- user
      by_cases hass : patchTruthyNe p.assigneeId card.assigneeId = true
      · obtain ⟨a0, ha0, ha0ne, ha0old⟩ := patchTruthyNe_true hass
        have hnewass : newCard.assigneeId = a0 := by
          show p.assigneeId.getD card.assigneeId = a0
          rw [ha0]
          rfl
        have hfin : (CardRepository.updateIndices
            { r2 with cards := fun j =>
                if j = i then some newCard else r2.cards j }
            newCard).userIndex =
            bucketAdd r2.userIndex newCard.assigneeId newCard.id := by
          show (if newCard.assigneeId ≠ "" then _ else _) = _
          rw [if_pos (by rw [hnewass]; exact ha0ne)]
        rw [hfin, hnid]
        have hU2 : r2.userIndex =
            if card.assigneeId ≠ "" then
              bucketRemove r.userIndex card.assigneeId card.id
            else r.userIndex := by
          rw [hdef2, if_pos hass, rfui_userIndex, hU1]
        by_cases hAold : card.assigneeId = ""
        · rw [hU2, if_neg (by simp [hAold])]
          refine idxChar_addSet newCard i hnid ?_ ?_
          · intro v j hv hj
            rw [show j ∈ r.userIndex v ↔ _ from hr.user v j hv]
            exact (posOnly_exists_sel hpos2 (fun c => c.assigneeId)
              (fun c c' hk => hk.2.2.2.1) j v).symm
          · intro v hv hmem
            rcases (hr.user v i hv).mp hmem with ⟨c, hc, hs⟩
            rw [hcard] at hc
            cases hc
            beta_reduce at hs
            rw [hAold] at hs
            exact absurd hs.symm hv
        · rw [hU2, if_pos (by simp [hAold])]
          refine idxChar_addSet newCard i hnid ?_ ?_
          · intro v j hv hj
            rw [mem_bucketRemove (hr.userND card.assigneeId)]
            rw [show j ∈ r.userIndex v ↔ _ from hr.user v j hv]
            rw [posOnly_exists_sel hpos2 (fun c => c.assigneeId)
              (fun c c' hk => hk.2.2.2.1) j v]
            have hnn : ¬(v = card.assigneeId ∧ j = card.id) ↔ True := by
              simp [hid, hj]
            tauto
          · intro v hv hmem
            rw [← hid] at hmem
            rcases (mem_bucketRemove (hr.userND card.assigneeId)).mp hmem
              with ⟨hin, hno⟩
            rcases (hr.user v card.id hv).mp hin with ⟨c, hc, hs⟩
            rw [hcards] at hc
            cases hc
            exact absurd ⟨hs.symm, rfl⟩ hno
      · have hnewass : newCard.assigneeId = card.assigneeId := by
          show p.assigneeId.getD card.assigneeId = card.assigneeId
          exact merge_eq_of_not_truthyNe hass hpass
        have hU2 : r2.userIndex = r.userIndex := by
          rw [hdef2, if_neg hass]
          exact hU1
        by_cases hAold : card.assigneeId = ""
        · have hfin : (CardRepository.updateIndices
              { r2 with cards := fun j =>
                  if j = i then some newCard else r2.cards j }
              newCard).userIndex = r2.userIndex := by
            show (if newCard.assigneeId ≠ "" then _ else _) = _
            rw [if_neg (by simp [hnewass, hAold])]
          rw [hfin, hU2]
          refine idxChar_skipSet newCard i ?_ ?_ ?_
          · intro v j hv hj
            rw [show j ∈ r.userIndex v ↔ _ from hr.user v j hv]
            exact (posOnly_exists_sel hpos2 (fun c => c.assigneeId)
              (fun c c' hk => hk.2.2.2.1) j v).symm
          · intro v hv heq
            rw [hnewass, hAold] at heq
            exact hv heq.symm
          · intro v hv hmem
            rcases (hr.user v i hv).mp hmem with ⟨c, hc, hs⟩
            rw [hcard] at hc
            cases hc
            beta_reduce at hs
            rw [hAold] at hs
            exact absurd hs.symm hv
        · have hfin : (CardRepository.updateIndices
              { r2 with cards := fun j =>
                  if j = i then some newCard else r2.cards j }
              newCard).userIndex =
              bucketAdd r2.userIndex newCard.assigneeId newCard.id := by
            show (if newCard.assigneeId ≠ "" then _ else _) = _
            rw [if_pos (by simp [hnewass, hAold])]
          rw [hfin, hnid, hU2]
          refine idxChar_addSet newCard i hnid ?_ ?_
          · intro v j hv hj
            rw [show j ∈ r.userIndex v ↔ _ from hr.user v j hv]
            exact (posOnly_exists_sel hpos2 (fun c => c.assigneeId)
              (fun c c' hk => hk.2.2.2.1) j v).symm
          · intro v hv hmem
            rcases (hr.user v i hv).mp hmem with ⟨c, hc, hs⟩
            rw [hcard] at hc
            cases hc
            rw [hnewass]
            exact hs.symm
    · -- parent
      by_cases hPold : card.parentId = ""
      · have hfin : (CardRepository.updateIndices
            { r2 with cards := fun j =>
                if j = i then some newCard else r2.cards j }
            newCard).parentIndex = r2.parentIndex := by
          show (if newCard.parentId ≠ "" then _ else _) = _
          rw [if_neg (by simp [hnp, hPold])]
        rw [hfin, hP2]
        refine idxChar_skipSet newCard i ?_ ?_ ?_
        · intro v j hv hj
          rw [show j ∈ r.parentIndex v ↔ _ from hr.parent v j hv]
          exact (posOnly_exists_sel hpos2 (fun c => c.parentId)
            (fun c c' hk => hk.2.2.2.2) j v).symm
        · intro v hv heq
          rw [hnp, hPold] at heq
          exact hv heq.symm
        · intro v hv hmem
          rcases (hr.parent v i hv).mp hmem with ⟨c, hc, hs⟩
          rw [hcard] at hc
          cases hc
          beta_reduce at hs
          rw [hPold] at hs
          exact absurd hs.symm hv
      · have hfin : (CardRepository.updateIndices
            { r2 with cards := fun j =>
                if j = i then some newCard else r2.cards j }
            newCard).parentIndex =
            bucketAdd r2.parentIndex newCard.parentId newCard.id := by
          show (if newCard.parentId ≠ "" then _ else _) = _
          rw [if_pos (by simp [hnp, hPold])]
        rw [hfin, hnid, hP2]
        refine idxChar_addSet newCard i hnid ?_ ?_
        · intro v j hv hj
          rw [show j ∈ r.parentIndex v ↔ _ from hr.parent v j hv]
          exact (posOnly_exists_sel hpos2 (fun c => c.parentId)
            (fun c c' hk => hk.2.2.2.2) j v).symm
        · intro v hv hmem
          rcases (hr.parent v i hv).mp hmem with ⟨c, hc, hs⟩
          rw [hcard] at hc
          cases hc
          rw [hnp]
          exact hs.symm
    · -- boardND
      show ∀ v, (bucketAdd r2.boardIndex newCard.boardId newCard.id v).Nodup
      rw [hB2]
      exact bucketAdd_nodup hr.boardND
    · -- columnND
      show ∀ v, (bucketAdd r2.columnIndex newCard.columnId newCard.id v).Nodup
      rw [hC2]
      by_cases hcol : patchTruthyNe p.columnId card.columnId = true
      · have hC1 : r1.columnIndex =
            bucketRemove r.columnIndex card.columnId card.id := by
          rw [hdef1, if_pos hcol, rfci_columnIndex, if_pos hmemcol]
        rw [hC1]
        exact bucketAdd_nodup (bucketRemove_nodup hr.columnND)
      · have hC1 : r1.columnIndex = r.columnIndex := by
          rw [hdef1, if_neg hcol]
        rw [hC1]
        exact bucketAdd_nodup hr.columnND
    · -- userND
      intro v
      by_cases hass : patchTruthyNe p.assigneeId card.assigneeId = true
      · have hU2 : r2.userIndex =
            if card.assigneeId ≠ "" then
              bucketRemove r.userIndex card.assigneeId card.id
            else r.userIndex := by
          rw [hdef2, if_pos hass, rfui_userIndex, hU1]
        have hund : ∀ w, (r2.userIndex w).Nodup := by
          rw [hU2]
          by_cases hAold : card.assigneeId = ""
          · rw [if_neg (by simp [hAold])]
            exact hr.userND
          · rw [if_pos (by simp [hAold])]
            exact bucketRemove_nodup hr.userND
        show ((if newCard.assigneeId ≠ "" then
            bucketAdd r2.userIndex newCard.assigneeId newCard.id
          else r2.userIndex) v).Nodup
        by_cases hna : newCard.assigneeId = ""
        · rw [if_neg (by simp [hna])]
          exact hund v
        · rw [if_pos (by simp [hna])]
          exact bucketAdd_nodup hund v
      · have hU2 : r2.userIndex = r.userIndex := by
          rw [hdef2, if_neg hass]
          exact hU1
        show ((if newCard.assigneeId ≠ "" then
            bucketAdd r2.userIndex newCard.assigneeId newCard.id
          else r2.userIndex) v).Nodup
        by_cases hna : newCard.assigneeId = ""
        · rw [if_neg (by simp [hna]), hU2]
          exact hr.userND v
        · rw [if_pos (by simp [hna]), hU2]
          exact bucketAdd_nodup hr.userND v
    · -- parentND
      intro v
      show ((if newCard.parentId ≠ "" then
          bucketAdd r2.parentIndex newCard.parentId newCard.id
        else r2.parentIndex) v).Nodup
      by_cases hna : newCard.parentId = ""
      · rw [if_neg (by simp [hna]), hP2]
        exact hr.parentND v
      · rw [if_pos (by simp [hna]), hP2]
        exact bucketAdd_nodup hr.parentND v

theorem repoInv_applyOp (r : CardRepository) (hr : RepoInv r)
    (op : CardOp) (hop : LegalOp r op) : RepoInv (applyOp r op) := by
  cases op with
  | create card => exact repoInv_create r hr card hop
  | update i p now => exact repoInv_update r hr i p now hop
  | delete i => exact repoInv_delete r hr i

theorem repoInv_applyOps : ∀ (ops : List CardOp) (r : CardRepository),
    RepoInv r → LegalOps r ops → RepoInv (ops.foldl applyOp r) := by
  intro ops
  induction ops with
  | nil => exact fun r hr _ => hr
  | cons op rest ih =>
    intro r hr hleg
    exact ih (applyOp r op) (repoInv_applyOp r hr op hleg.1) hleg.2

theorem filterMap_char (r : CardRepository)
    (hkey : ∀ j c, r.cards j = some c → c.id = j)
    (idx : String → List String) (sel : Card → String) (v : String)
    (hchar : ∀ j, j ∈ idx v ↔ ∃ c, r.cards j = some c ∧ sel c = v)
    (c : Card) :
    c ∈ (idx v).filterMap r.cards ↔
      r.cards c.id = some c ∧ sel c = v := by
  rw [List.mem_filterMap]
  constructor
  · rintro ⟨j, hj, hcj⟩
    have hcid : c.id = j := hkey j c hcj
    subst hcid
    rcases (hchar c.id).mp hj with ⟨c', hc', hs'⟩
    rw [hcj] at hc'
    cases hc'
    exact ⟨hcj, hs'⟩
  · rintro ⟨hc, hs⟩
    exact ⟨c.id, (hchar c.id).mpr ⟨c, hc, hs⟩, hc⟩

theorem queries_exact_of_inv (r : CardRepository) (hr : RepoInv r) :
    (∀ v c, c ∈ r.findByBoard v ↔
      r.cards c.id = some c ∧ c.boardId = v) ∧
    (∀ v c, c ∈ r.findByColumn v ↔
      r.cards c.id = some c ∧ c.columnId = v) ∧
    (∀ v c, v ≠ "" → (c ∈ r.findByAssignee v ↔
      r.cards c.id = some c ∧ c.assigneeId = v)) ∧
    (∀ v c, v ≠ "" → (c ∈ r.findChildren v ↔
      r.cards c.id = some c ∧ c.parentId = v)) := by
  refine ⟨?_, ?_, ?_, ?_⟩
  · intro v c
    exact filterMap_char r hr.keyId r.boardIndex (fun c => c.boardId) v
      (fun j => hr.board v j trivial) c
  · intro v c
    rw [CardRepository.findByColumn, List.mem_mergeSort]
    exact filterMap_char r hr.keyId r.columnIndex (fun c => c.columnId) v
      (fun j => hr.column v j trivial) c
  · intro v c hv
    exact filterMap_char r hr.keyId r.userIndex (fun c => c.assigneeId) v
      (fun j => hr.user v j hv) c
  · intro v c hv
    exact filterMap_char r hr.keyId r.parentIndex (fun c => c.parentId) v
      (fun j => hr.parent v j hv) c

/-- **C3 amended** (index consistency): for every sequence of legal
`CardRepository` operations — `create` with fresh ids, `update` patches
(over the full `Partial<Card>` field set) that leave `id`, `boardId` and
`parentId` untouched and never write an empty string to `columnId` or
`assigneeId` — the four secondary-index queries return exactly the
stored cards whose current field value equals the queried value (the
user and parent queries for truthy query values).  Without those
restrictions the claim is false: the source's `update` never removes
stale `boardIndex`/`parentIndex` entries, and an `id`-overwriting patch
plants the new id in the old card's column bucket (see the two-part
counterexample). -/
theorem index_consistency (ops : List CardOp)
    (hlegal : LegalOps CardRepository.empty ops) :
    (∀ v c, c ∈ (applyOps ops).findByBoard v ↔
      (applyOps ops).cards c.id = some c ∧ c.boardId = v) ∧
    (∀ v c, c ∈ (applyOps ops).findByColumn v ↔
      (applyOps ops).cards c.id = some c ∧ c.columnId = v) ∧
    (∀ v c, v ≠ "" → (c ∈ (applyOps ops).findByAssignee v ↔
      (applyOps ops).cards c.id = some c ∧ c.assigneeId = v)) ∧
    (∀ v c, v ≠ "" → (c ∈ (applyOps ops).findChildren v ↔
      (applyOps ops).cards c.id = some c ∧ c.parentId = v)) :=
  queries_exact_of_inv (applyOps ops)
    (repoInv_applyOps ops CardRepository.empty repoInv_empty hlegal)

/-- The card used by the C3 counterexample and witness. -/
def cx3Card : Card :=
  { id := "c1", boardId := "b1", columnId := "col1", title := "t"
    description := "", priority := "medium", assigneeId := ""
    parentId := "", position := 0, tags := [], createdAt := 0
    updatedAt := 0, createdBy := "u1" }

/-- Card `"x"` in column `"colA"`, for the id-overwrite counterexample. -/
def cxCardX : Card :=
  { id := "x", boardId := "b1", columnId := "colA", title := "tx"
    description := "", priority := "medium", assigneeId := ""
    parentId := "", position := 0, tags := [], createdAt := 0
    updatedAt := 0, createdBy := "u1" }

/-- Card `"y"` in column `"colB"`, for the id-overwrite counterexample. -/
def cxCardY : Card :=
  { id := "y", boardId := "b1", columnId := "colB", title := "ty"
    description := "", priority := "medium", assigneeId := ""
    parentId := "", position := 0, tags := [], createdAt := 0
    updatedAt := 0, createdBy := "u1" }

/-- **C3 counterexample**, in two parts.  First: create a card on board
`"b1"`, then update its `boardId` to `"b2"`; `findByBoard "b1"` still
returns the card — whose current `boardId` is `"b2"` — because `update`
never removes the id from the old board bucket.  Second: with cards
`"x"` (column `"colA"`) and `"y"` (column `"colB"`), the patch
`{ id: "y" }` on `"x"` makes `updateIndices` push `"y"` into the
`"colA"` bucket, so `findByColumn "colA"` returns card `"y"` — whose
current `columnId` is `"colB"`.  Both are stale entries refuting the
claim as stated. -/
theorem index_consistency_counterexample :
    ((applyOps [CardOp.create cx3Card,
        CardOp.update "c1" { boardId := some "b2" } 1]).findByBoard
      "b1").map (fun c => c.boardId) = ["b2"] ∧
    (cxCardY ∈ (applyOps [CardOp.create cxCardX, CardOp.create cxCardY,
        CardOp.update "x" { id := some "y" } 1]).findByColumn "colA" ∧
      cxCardY.columnId = "colB") := by
  refine ⟨by decide, ?_, by decide⟩
  unfold CardRepository.findByColumn
  rw [List.mem_mergeSort]
  decide

/-- The card value stored after the C3 witness operations. -/
def wCardAfter : Card :=
  { id := "c1", boardId := "b1", columnId := "col2", title := "t"
    description := "", priority := "medium", assigneeId := ""
    parentId := "", position := 0, tags := [], createdAt := 0
    updatedAt := 1, createdBy := "u1" }

/-- Witness for `index_consistency`: a legal create-then-move-column
sequence, after which `findByColumn "col2"` contains the card. -/
theorem index_consistency_witness :
    LegalOps CardRepository.empty
      [CardOp.create cx3Card, CardOp.update "c1" { columnId := some "col2" } 1] ∧
    wCardAfter ∈ (applyOps [CardOp.create cx3Card,
      CardOp.update "c1" { columnId := some "col2" } 1]).findByColumn "col2" := by
  have hleg : LegalOps CardRepository.empty
      [CardOp.create cx3Card, CardOp.update "c1" { columnId := some "col2" } 1] :=
    ⟨rfl, rfl, trivial⟩
  refine ⟨hleg, ?_⟩
  exact ((index_consistency _ hleg).2.1 "col2" wCardAfter).mpr ⟨by decide, rfl⟩

/-- **C9** (NotFound semantics): `update` on an id absent from the
primary map throws (`Except.error`, so no successor state exists — the
store is untouched), and `delete` on an absent id returns `false` with
the repository exactly as it was. -/
theorem notfound_semantics (r : CardRepository) (i : String)
    (p : CardPatch) (now : Nat) (h : r.cards i = none) :
    r.update i p now = Except.error ("Card " ++ i ++ " not found") ∧
    r.deleteCard i = (false, r) := by
  unfold CardRepository.update CardRepository.deleteCard
  rw [h]
  exact ⟨rfl, rfl⟩

/-- Witness for `notfound_semantics` on the empty repository. -/
theorem notfound_semantics_witness :
    CardRepository.empty.cards "ghost" = none ∧
    CardRepository.empty.update "ghost" {} 0 =
      Except.error ("Card " ++ "ghost" ++ " not found") ∧
    CardRepository.empty.deleteCard "ghost" =
      (false, CardRepository.empty) :=
  ⟨rfl, (notfound_semantics CardRepository.empty "ghost" {} 0 rfl).1,
    (notfound_semantics CardRepository.empty "ghost" {} 0 rfl).2⟩

/-! ### Dispatcher commands with guarded state-machine transitions
(`PublishProjectCommand`, `ApproveMilestoneCommand`) -/

/-- A `Milestone` (`src/types/index.ts`), restricted to the fields the
two commands read or write (`id`, `title`, `status`, `approvedAt`); the
other payload fields (description, deliverables, amount, deadline,
files) never influence the guarded control flow. -/
structure Milestone where
  id : String
  title : String
  status : String
  approvedAt : Option Nat
  deriving DecidableEq, Repr

/-- A `Project` (`src/types/index.ts`), restricted to the fields the two
commands read or write: `status`, the `timeline.milestones` list, and
the `title`/`budget.amount` that feed the chain payload. -/
structure Project where
  id : String
  clientId : String
  title : String
  status : String
  budgetAmount : Nat
  milestones : List Milestone
  deriving DecidableEq, Repr

/-- `ProjectStatus.DRAFT` (`src/types/index.ts` line 91). -/
def ProjectStatus.DRAFT : String := "draft"

/-- `ProjectStatus.OPEN`. -/
def ProjectStatus.OPEN : String := "open"

/-- `ProjectStatus.IN_PROGRESS`. -/
def ProjectStatus.IN_PROGRESS : String := "in_progress"

/-- `ProjectStatus.COMPLETED`. -/
def ProjectStatus.COMPLETED : String := "completed"

/-- The `ProjectRepository` primary map (its secondary indices never
affect the two commands modelled here). -/
structure ProjectRepository where
  projects : String → Option Project

/-- `ProjectRepository.findById`. -/
def ProjectRepository.findById (pr : ProjectRepository) (i : String) :
    Option Project :=
  pr.projects i

/-- `ProjectRepository.update` (`src/unnamed/part_009` lines 56-69),
restricted to the two fields the commands patch (`status` and
`timeline.milestones`): merges and stores; on an unknown id it returns
`null` and leaves the map untouched (both call sites ignore the
result). -/
def ProjectRepository.update (pr : ProjectRepository) (i : String)
    (status : Option String) (milestones : Option (List Milestone)) :
    ProjectRepository :=
  match pr.projects i with
  | none => pr
  | some proj =>
    let updated := { proj with
      status := status.getD proj.status
      milestones := milestones.getD proj.milestones }
    { projects := fun j => if j = i then some updated else pr.projects j }

/-- The shared state a command executes against: the project store and
the chain. -/
structure CommandCtx where
  chain : Chain
  projects : ProjectRepository

/-- The `{ title, budget: budget.amount }` payload logged by
`PublishProjectCommand`, as an opaque string. -/
def publishPayload (p : Project) : String :=
  "title: " ++ p.title ++ ", budget: " ++ toString p.budgetAmount

/-- `PublishProjectCommand.execute` (`src/unnamed/part_005` lines
429-456) at clock `t`: not-found check, then the draft-status guard,
and only then the two effects (repository update to `OPEN`, chain
append). -/
def PublishProjectCommand.execute (ctx : CommandCtx)
    (projectId : String) (actorId : String) (t : Nat) :
    Except String CommandCtx :=
  match ctx.projects.findById projectId with
  | none => Except.error "Project not found"
  | some project =>
    if project.status ≠ ProjectStatus.DRAFT then
      Except.error "Only draft projects can be published"
    else
      let repo' := ctx.projects.update projectId (some ProjectStatus.OPEN)
        none
      let chain' := ctx.chain.addBlock t "PUBLISH_PROJECT" "Project"
        projectId (publishPayload project) actorId
      Except.ok { chain := chain', projects := repo' }

/-- Default used to model the partiality of JS array indexing at an
index supplied by a successful `findIndex`; never observed. -/
def defaultMilestone : Milestone :=
  { id := "", title := "", status := "", approvedAt := none }

/-- The `{ projectId, milestoneTitle, allCompleted }` payload logged by
`ApproveMilestoneCommand`, as an opaque string. -/
def approvePayload (projectId milestoneTitle : String)
    (allCompleted : Bool) : String :=
  "projectId: " ++ projectId ++ ", milestoneTitle: " ++ milestoneTitle ++
    ", allCompleted: " ++ toString allCompleted

/-- `ApproveMilestoneCommand.execute` (`src/unnamed/part_005` lines
720-767) at clock `t`: not-found checks and the submitted-status guard
run before any mutation; then the milestone is approved, the next
milestone (if any) started, the project stored as `COMPLETED` or
`IN_PROGRESS`, and the block appended. -/
def ApproveMilestoneCommand.execute (ctx : CommandCtx)
    (projectId : String) (milestoneId : String) (actorId : String)
    (t : Nat) : Except String CommandCtx :=
  match ctx.projects.findById projectId with
  | none => Except.error "Project not found"
  | some project =>
    match project.milestones.findIdx? (fun m => m.id == milestoneId) with
    | none => Except.error "Milestone not found"
    | some milestoneIndex =>
      let milestone := project.milestones.getD milestoneIndex
        defaultMilestone
      if milestone.status ≠ "submitted" then
        Except.error "Milestone must be submitted to approve"
      else
        let ms1 := project.milestones.set milestoneIndex
          { milestone with status := "approved", approvedAt := some t }
        let ms2 := if milestoneIndex + 1 < ms1.length then
            ms1.set (milestoneIndex + 1)
              { ms1.getD (milestoneIndex + 1) defaultMilestone with
                status := "in_progress" }
          else ms1
        let allCompleted := ms2.all (fun m => m.status == "approved")
        let repo' := ctx.projects.update projectId
          (some (if allCompleted then ProjectStatus.COMPLETED
            else ProjectStatus.IN_PROGRESS))
          (some ms2)
        let chain' := ctx.chain.addBlock t "APPROVE_MILESTONE" "Milestone"
          milestoneId (approvePayload projectId milestone.title allCompleted)
          actorId
        Except.ok { chain := chain', projects := repo' }

/-- **C4** (guarded transitions fail before either effect): whenever a
precondition fails — project missing or not `DRAFT` for
`PublishProjectCommand`; project missing, milestone missing, or
milestone not `submitted` for `ApproveMilestoneCommand` — `execute`
returns the corresponding `Except.error` and no successor state: in this
pure embedding an error result is exactly "neither the repository nor
the chain was touched" (no partial application). -/
theorem guarded_transitions (ctx : CommandCtx)
    (projectId milestoneId actorId : String) (t : Nat) :
    (ctx.projects.findById projectId = none →
      PublishProjectCommand.execute ctx projectId actorId t =
        Except.error "Project not found") ∧
    (∀ project, ctx.projects.findById projectId = some project →
      project.status ≠ ProjectStatus.DRAFT →
      PublishProjectCommand.execute ctx projectId actorId t =
        Except.error "Only draft projects can be published") ∧
    (ctx.projects.findById projectId = none →
      ApproveMilestoneCommand.execute ctx projectId milestoneId actorId t =
        Except.error "Project not found") ∧
    (∀ project, ctx.projects.findById projectId = some project →
      project.milestones.findIdx? (fun m => m.id == milestoneId) = none →
      ApproveMilestoneCommand.execute ctx projectId milestoneId actorId t =
        Except.error "Milestone not found") ∧
    (∀ project k, ctx.projects.findById projectId = some project →
      project.milestones.findIdx? (fun m => m.id == milestoneId) = some k →
      (project.milestones.getD k defaultMilestone).status ≠ "submitted" →
      ApproveMilestoneCommand.execute ctx projectId milestoneId actorId t =
        Except.error "Milestone must be submitted to approve") := by
  refine ⟨?_, ?_, ?_, ?_, ?_⟩
  · intro h
    unfold PublishProjectCommand.execute
    rw [h]
  · intro project h hs
    unfold PublishProjectCommand.execute
    simp only [h]
    rw [if_pos hs]
  · intro h
    unfold ApproveMilestoneCommand.execute
    rw [h]
  · intro project h hidx
    unfold ApproveMilestoneCommand.execute
    simp only [h, hidx]
  · intro project k h hidx hs
    unfold ApproveMilestoneCommand.execute
    simp only [h, hidx]
    rw [if_pos hs]

/-- The project of the C4 witness: status `"open"` (not draft), one
milestone still `"pending"` (not submitted). -/
def wMilestone : Milestone :=
  { id := "m1", title := "M", status := "pending", approvedAt := none }

def wProject : Project :=
  { id := "p1", clientId := "cl1", title := "T", status := "open"
    budgetAmount := 100
    milestones := [wMilestone] }

/-- The context of the C4 witness. -/
def wCtx : CommandCtx :=
  { chain := Chain.init 0
    projects := { projects := fun j => if j = "p1" then some wProject
      else none } }

/-- Witness for `guarded_transitions`: publishing the non-draft project
and approving the non-submitted milestone both fail with the expected
errors. -/
theorem guarded_transitions_witness :
    wCtx.projects.findById "p1" = some wProject ∧
    wProject.status ≠ ProjectStatus.DRAFT ∧
    PublishProjectCommand.execute wCtx "p1" "u1" 1 =
      Except.error "Only draft projects can be published" ∧
    wProject.milestones.findIdx? (fun m => m.id == "m1") = some 0 ∧
    (wProject.milestones.getD 0 defaultMilestone).status ≠ "submitted" ∧
    ApproveMilestoneCommand.execute wCtx "p1" "m1" "u1" 1 =
      Except.error "Milestone must be submitted to approve" :=
  ⟨rfl, by decide, (guarded_transitions wCtx "p1" "m1" "u1" 1).2.1 wProject
      rfl (by decide),
    by decide, by decide,
    (guarded_transitions wCtx "p1" "m1" "u1" 1).2.2.2.2 wProject 0 rfl
      (by decide) (by decide)⟩

end Workchain
